import Mathlib

/-!
Shallow embedding of the report-extraction core of `hyperautomation.py`
(`parse_duration`, `parse_hyperopt_show_output` and their helpers), together
with theorems checking the natural-language specification's claims against it.

Modelling conventions:
* Python `str` is Lean `String`; character-level work is done on `List Char`.
* Python dicts (insertion-ordered, replace-in-place on existing keys, append
  on new keys) are association lists `List (key × value)` with `insert`
  mirroring CPython 3.7+ semantics.
* Python scalar values flowing through the parser (strings, ints, bools,
  floats, `None`) are the inductive `PyVal`; floats are modelled exactly as
  rationals.
* `unicodedata.normalize('NFKC', ·)` is modelled as the identity: the
  embedding works on the already-normalized text (the box-drawing glyphs
  used by the markers are NFKC-fixed points).
* Whitespace is the ASCII whitespace set; `str.splitlines` is modelled as
  splitting on `'\n'` (with Python's dropped trailing empty line).
-/

namespace Hyperauto

/-- ASCII whitespace, modelling the characters Python's `str.strip()` and
`\s` remove in this report format. -/
def wsChar (c : Char) : Bool :=
  c = ' ' || c = '\t' || c = '\n' || c = '\r' || c = '\x0b' || c = '\x0c'

/-- Drop leading whitespace characters. -/
def trimL (cs : List Char) : List Char := cs.dropWhile wsChar

/-- Drop trailing whitespace characters. -/
def trimR (cs : List Char) : List Char := (cs.reverse.dropWhile wsChar).reverse

/-- Both-sided trim, modelling Python `str.strip()`. -/
def trimBoth (cs : List Char) : List Char := trimR (trimL cs)

/-- `str.strip()` on `String`. -/
def pyStrip (s : String) : String := String.mk (trimBoth s.data)

/-- Boolean prefix test on character lists (`pat` is the pattern). -/
def listStarts : List Char → List Char → Bool
  | [], _ => true
  | _ :: _, [] => false
  | p :: ps, c :: cs => if p = c then listStarts ps cs else false

/-- Boolean substring test, modelling Python's `pat in hay`. -/
def listContainsSub : List Char → List Char → Bool
  | hay, pat =>
    listStarts pat hay ||
      match hay with
      | [] => false
      | _ :: t => listContainsSub t pat

/-- `str.startswith` on `String`. -/
def pyStarts (s pat : String) : Bool := listStarts pat.data s.data

/-- Python's `pat in s` substring containment on `String`. -/
def pyContains (s pat : String) : Bool := listContainsSub s.data pat.data

/-- Split a character list on a separator character; always returns a
non-empty list of separator-free chunks, modelling Python `str.split(sep)`. -/
def splitOnChar (sep : Char) : List Char → List (List Char)
  | [] => [[]]
  | c :: cs =>
    let r := splitOnChar sep cs
    if c = sep then [] :: r
    else
      match r with
      | [] => [[c]]
      | h :: t => (c :: h) :: t

/-- Python `str.split(sep)` for a one-character separator. -/
def pySplit (sep : Char) (s : String) : List String :=
  (splitOnChar sep s.data).map String.mk

/-- Python `str.splitlines()`, modelled on `'\n'` only: empty text gives no
lines, and a trailing newline does not produce a trailing empty line. -/
def pySplitlines (s : String) : List String :=
  if s.data = [] then []
  else
    let parts := splitOnChar '\n' s.data
    let parts := if parts.getLast? = some [] then parts.dropLast else parts
    parts.map String.mk

/-- `str.replace("%", "")`: remove every percent sign. -/
def stripPct (s : String) : String := String.mk (s.data.filter (fun c => c != '%'))

/-- Remove all trailing commas, modelling `str.rstrip(",")`. -/
def rstripCommas (s : String) : String :=
  String.mk ((s.data.reverse.dropWhile (fun c => c = ',')).reverse)

/-- `"\n".join(lines)`. -/
def joinNL : List String → String
  | [] => ""
  | [s] => s
  | s :: rest => s ++ "\n" ++ joinNL rest

/-- The kind of a Python container literal. -/
inductive ContKind where
  | list
  | tuple
  | setLit
  | dictLit
  deriving DecidableEq, Repr

/-- A Python value as it flows through the parser: scalar literals (strings,
ints, bools, floats modelled exactly as rationals, `None`) and container
literals (lists, tuples, sets, dicts) appearing as parameter values. The
program only ever **stores** container values — it never inspects or
compares them — so the model keeps a container's kind together with its
source text instead of a nested object tree; the kind is what drives the
hashability check on `set` elements and `dict` keys. -/
inductive PyVal where
  | str (s : String)
  | int (n : Int)
  | bool (b : Bool)
  | float (q : Rat)
  | noneV
  | container (kind : ContKind) (src : String)
  deriving DecidableEq, Repr

/-- Whether a value is hashable (usable as a `set` element or `dict` key).
Tuples are treated as hashable without inspecting their elements — a tuple
containing a list is unhashable in Python, a corner this model does not
chase (such a literal never occurs in the quoted-key parameter lines the
block string is built from). -/
def PyVal.hashable : PyVal → Bool
  | .container .list _ => false
  | .container .setLit _ => false
  | .container .dictLit _ => false
  | _ => true

/-- An insertion-ordered Python dict from string keys to `PyVal`. -/
abbrev PyDict := List (String × PyVal)

/-- Dict lookup (`d[k]` / `d.get(k)`); keys are unique in dicts built by
`PyDict.insert`, so first match is the binding. -/
def PyDict.get? : PyDict → String → Option PyVal
  | [], _ => Option.none
  | kv :: d, k => if kv.1 = k then some kv.2 else PyDict.get? d k

/-- Python `d.get(k, default)`. -/
def PyDict.getD (d : PyDict) (k : String) (dflt : PyVal) : PyVal :=
  (d.get? k).getD dflt

/-- Python `d[k] = v`: replace in place when the key exists, else append
(CPython 3.7+ insertion-order semantics). -/
def PyDict.insert : PyDict → String → PyVal → PyDict
  | [], k, v => [(k, v)]
  | kv :: d, k, v => if kv.1 = k then (k, v) :: d else kv :: PyDict.insert d k v

/-- The dict's key sequence, in insertion order. -/
def PyDict.keys (d : PyDict) : List String := d.map Prod.fst

/-- Keys are pairwise distinct (holds for every dict built by `insert`). -/
def PyDict.NodupKeys (d : PyDict) : Prop := d.keys.Nodup

/-- Python `d.update(m)`: insert every binding of `m` in order. -/
def PyDict.update (d m : PyDict) : PyDict :=
  m.foldl (fun a kv => a.insert kv.1 kv.2) d

/-- Python word character for `\w` (ASCII model). -/
def isWordChar (c : Char) : Bool := c.isAlpha || c.isDigit || c = '_'

/-- Whether a character list starts with a decimal digit. -/
def headDigit : List Char → Bool
  | [] => false
  | c :: _ => c.isDigit

/-- Digits with optional single underscores between digit groups, as accepted
by Python `int()` after the sign: accumulates the value. `lastDigit` records
whether the previous character was a digit (an underscore is legal only
between digits, and the string may end only after a digit). -/
def pyIntCore : List Char → Nat → Bool → Option Nat
  | [], acc, lastDigit => if lastDigit then some acc else Option.none
  | c :: cs, acc, lastDigit =>
    if c.isDigit then pyIntCore cs (acc * 10 + (c.toNat - '0'.toNat)) true
    else if c = '_' then
      if lastDigit && headDigit cs then pyIntCore cs acc false else Option.none
    else Option.none

/-- Python `int(s)`: strip surrounding whitespace, optional sign, then a
non-empty digit string (single underscores between digits allowed).
Returns `none` where Python raises `ValueError`. -/
def pyInt (s : String) : Option Int :=
  match trimBoth s.data with
  | '+' :: cs => (pyIntCore cs 0 false).map Int.ofNat
  | '-' :: cs => (pyIntCore cs 0 false).map (fun n => -(Int.ofNat n))
  | cs => (pyIntCore cs 0 false).map Int.ofNat

/-- Map `int()` over the split parts; `none` as soon as one part fails,
modelling the exception raised inside `list(map(int, ...))`. -/
def allInts : List String → Option (List Int)
  | [] => some []
  | s :: ss =>
    match pyInt s, allInts ss with
    | some n, some ns => some (n :: ns)
    | _, _ => Option.none

/-- Python `round(t / 60)` for an integer `t`, evaluated exactly: round to
nearest with ties to even (banker's rounding). The source computes
`h * 60 + m + s / 60` in floating point; over the magnitudes these reports
produce the float result is exact enough that `round` agrees with this
exact rational rounding. -/
def roundHalfEvenDiv60 (t : Int) : Int :=
  let q := t / 60
  let r := t % 60
  if r < 30 then q
  else if r > 30 then q + 1
  else if q % 2 = 0 then q else q + 1

/-- `parse_duration` from the source: split on `':'`, convert every part with
`int()` (any failure is the caught exception, returning the string `"N/A"`);
three parts give `round(h*60 + m + s/60)` minutes, two parts give
`round(m + s/60)`; any other number of integer parts falls off the end of the
`if`/`elif` chain and returns Python `None`. -/
def parse_duration (s : String) : PyVal :=
  match allInts (pySplit ':' s) with
  | Option.none => .str "N/A"
  | some parts =>
    match parts with
    | [h, m, sec] => .int (roundHalfEvenDiv60 (h * 3600 + m * 60 + sec))
    | [m, sec] => .int (roundHalfEvenDiv60 (m * 60 + sec))
    | _ => .noneV

/-! ### `ast.literal_eval` on the reassembled parameter-block dict string -/

/-- The `'{'` character (written via its code point). -/
def lbrace : Char := Char.ofNat 123

/-- The `'}'` character (written via its code point). -/
def rbrace : Char := Char.ofNat 125

/-- Skip whitespace. -/
def skipWs (cs : List Char) : List Char := cs.dropWhile wsChar

/-- Take characters up to (not including) the next occurrence of `stop`;
returns the chunk and the remainder after `stop`, or `none` if absent. -/
def takeTill (stop : Char) : List Char → Option (List Char × List Char)
  | [] => Option.none
  | c :: cs =>
    if c = stop then some ([], cs)
    else (takeTill stop cs).map (fun p => (c :: p.1, p.2))

/-- Consume an expected literal prefix, returning the remainder. -/
def chopLit : List Char → List Char → Option (List Char)
  | [], cs => some cs
  | _ :: _, [] => Option.none
  | p :: ps, c :: cs => if p = c then chopLit ps cs else Option.none

/-- Parse a decimal digit run, returning digits and remainder. -/
def digitRun (cs : List Char) : List Char × List Char :=
  (cs.takeWhile Char.isDigit, cs.dropWhile Char.isDigit)

/-- Numeric value of a digit list (most significant first). -/
def digitsToNat (ds : List Char) : Nat :=
  ds.foldl (fun a c => a * 10 + (c.toNat - '0'.toNat)) 0

/-- Parse a Python numeric literal (optional sign, integer part, optional
fractional part, optional exponent). Integer literals become `PyVal.int`,
anything with a point or exponent becomes a `PyVal.float` evaluated exactly
as a rational (the IEEE rounding of the source's floats is immaterial here:
parameter values are only stored and copied, never computed with). -/
def parseNumLit (cs : List Char) : Option (PyVal × List Char) :=
  let (neg, cs) :=
    match cs with
    | '-' :: t => (true, t)
    | '+' :: t => (false, t)
    | t => (false, t)
  let (ip, cs) := digitRun cs
  if ip = [] then Option.none
  else
    let (hasDot, fp, cs) :=
      match cs with
      | '.' :: t =>
        let (fp, t') := digitRun t
        (true, fp, t')
      | t => (false, [], t)
    let (hasExp, exp, cs) :=
      match cs with
      | 'e' :: t =>
        match t with
        | '-' :: t' => let (ed, t'') := digitRun t'; (true, -(Int.ofNat (digitsToNat ed)), if ed = [] then 'e' :: t else t'')
        | '+' :: t' => let (ed, t'') := digitRun t'; (true, Int.ofNat (digitsToNat ed), if ed = [] then 'e' :: t else t'')
        | t' => let (ed, t'') := digitRun t'; (true, Int.ofNat (digitsToNat ed), if ed = [] then 'e' :: t else t'')
      | 'E' :: t =>
        match t with
        | '-' :: t' => let (ed, t'') := digitRun t'; (true, -(Int.ofNat (digitsToNat ed)), if ed = [] then 'E' :: t else t'')
        | '+' :: t' => let (ed, t'') := digitRun t'; (true, Int.ofNat (digitsToNat ed), if ed = [] then 'E' :: t else t'')
        | t' => let (ed, t'') := digitRun t'; (true, Int.ofNat (digitsToNat ed), if ed = [] then 'E' :: t else t'')
      | t => (false, (0 : Int), t)
    let mantissa : Int := Int.ofNat (digitsToNat (ip ++ fp))
    let signedMant : Int := if neg then -mantissa else mantissa
    if hasDot || hasExp then
      let q : Rat := (signedMant : Rat) * (10 : Rat) ^ (exp - Int.ofNat fp.length)
      some (.float q, cs)
    else
      some (.int signedMant, cs)

/-!
The skip/validate layer of the `ast.literal_eval` model: walk one literal
value, checking the grammar Python enforces (including the dict-vs-set
distinction inside braces and hashability of set elements and dict keys)
and returning the remainder. `Bool` results: for `skipLitVal`, whether the
value is hashable; for `skipLitBraces`/`skipDictRest`/`skipSetRest`, whether
the braces held a dict (`true`) or a set (`false`). All functions are
fuelled; callers pass fuel ample for the input length.
-/

mutual

def skipLitVal : Nat → List Char → Option (Bool × List Char)
  | 0, _ => Option.none
  | fuel + 1, cs =>
    match cs with
    | [] => Option.none
    | '"' :: rest => (takeTill '"' rest).map (fun p => (true, p.2))
    | '[' :: rest => (skipLitSeq fuel ']' (skipWs rest)).map (fun r => (false, r))
    | '(' :: rest => (skipLitSeq fuel ')' (skipWs rest)).map (fun r => (true, r))
    | c :: rest =>
      if c = lbrace then (skipLitBraces fuel (skipWs rest)).map (fun p => (false, p.2))
      else
        match chopLit ['T', 'r', 'u', 'e'] cs with
        | some r => some (true, r)
        | Option.none =>
          match chopLit ['F', 'a', 'l', 's', 'e'] cs with
          | some r => some (true, r)
          | Option.none =>
            match chopLit ['N', 'o', 'n', 'e'] cs with
            | some r => some (true, r)
            | Option.none => (parseNumLit cs).map (fun p => (true, p.2))

def skipLitSeq : Nat → Char → List Char → Option (List Char)
  | 0, _, _ => Option.none
  | fuel + 1, close, cs =>
    match cs with
    | [] => Option.none
    | c :: rest =>
      if c = close then some rest
      else
        match skipLitVal fuel cs with
        | Option.none => Option.none
        | some (_, r1) =>
          match skipWs r1 with
          | ',' :: r2 => skipLitSeq fuel close (skipWs r2)
          | c2 :: r2 => if c2 = close then some r2 else Option.none
          | [] => Option.none

def skipLitBraces : Nat → List Char → Option (Bool × List Char)
  | 0, _ => Option.none
  | fuel + 1, cs =>
    match cs with
    | [] => Option.none
    | c :: rest =>
      if c = rbrace then some (true, rest)
      else
        match skipLitVal fuel cs with
        | Option.none => Option.none
        | some (h1, r1) =>
          match skipWs r1 with
          | ':' :: r2 =>
            if h1 then
              match skipLitVal fuel (skipWs r2) with
              | Option.none => Option.none
              | some (_, r3) => skipDictRest fuel (skipWs r3)
            else Option.none
          | r1w => if h1 then skipSetRest fuel r1w else Option.none

def skipDictRest : Nat → List Char → Option (Bool × List Char)
  | 0, _ => Option.none
  | fuel + 1, cs =>
    match cs with
    | ',' :: r1 =>
      (match skipWs r1 with
       | [] => Option.none
       | c :: r2 =>
         if c = rbrace then some (true, r2)
         else
           match skipLitVal fuel (c :: r2) with
           | Option.none => Option.none
           | some (hk, r3) =>
             if hk then
               match skipWs r3 with
               | ':' :: r4 =>
                 match skipLitVal fuel (skipWs r4) with
                 | Option.none => Option.none
                 | some (_, r5) => skipDictRest fuel (skipWs r5)
               | _ => Option.none
             else Option.none)
    | c :: r1 => if c = rbrace then some (true, r1) else Option.none
    | [] => Option.none

def skipSetRest : Nat → List Char → Option (Bool × List Char)
  | 0, _ => Option.none
  | fuel + 1, cs =>
    match cs with
    | ',' :: r1 =>
      (match skipWs r1 with
       | [] => Option.none
       | c :: r2 =>
         if c = rbrace then some (false, r2)
         else
           match skipLitVal fuel (c :: r2) with
           | Option.none => Option.none
           | some (he, r3) =>
             if he then skipSetRest fuel (skipWs r3) else Option.none)
    | c :: r1 => if c = rbrace then some (false, r1) else Option.none
    | [] => Option.none

end

/-- Parse one literal value, producing a `PyVal`: scalars are decoded,
containers are validated via the skip layer and kept as kind plus source
span (the program only stores them). -/
def parseLitVal (fuel : Nat) (cs : List Char) : Option (PyVal × List Char) :=
  match cs with
  | [] => Option.none
  | '"' :: rest => (takeTill '"' rest).map (fun p => (.str (String.mk p.1), p.2))
  | '[' :: rest =>
    (skipLitSeq fuel ']' (skipWs rest)).map
      (fun r => (.container .list (String.mk (cs.take (cs.length - r.length))), r))
  | '(' :: rest =>
    (skipLitSeq fuel ')' (skipWs rest)).map
      (fun r => (.container .tuple (String.mk (cs.take (cs.length - r.length))), r))
  | c :: rest =>
    if c = lbrace then
      (skipLitBraces fuel (skipWs rest)).map
        (fun p => (.container (if p.1 then .dictLit else .setLit)
            (String.mk (cs.take (cs.length - p.2.length))), p.2))
    else
      match chopLit ['T', 'r', 'u', 'e'] cs with
      | some r => some (.bool true, r)
      | Option.none =>
        match chopLit ['F', 'a', 'l', 's', 'e'] cs with
        | some r => some (.bool false, r)
        | Option.none =>
          match chopLit ['N', 'o', 'n', 'e'] cs with
          | some r => some (.noneV, r)
          | Option.none => parseNumLit cs

/-- The outcome of `ast.literal_eval` on the reassembled `{...}` block: a
dict (restricted to its string-keyed entries — the only entries the
string-keyed `.get` lookups at line 475 can ever observe) or a set. -/
inductive ParamsResult where
  | pdict (d : PyDict)
  | pset (xs : List PyVal)
  deriving DecidableEq, Repr

/-- The dict a `ParamsResult` contributes to the normalizer; a set only ever
reaches the normalizer when `STRATEGY_HEADERS` is empty, where the
directional-lookup loop never touches it, so the empty dict is
observationally exact there. -/
def ParamsResult.asDict : ParamsResult → PyDict
  | .pdict d => d
  | .pset _ => []

/-- Whether `ast.literal_eval` produced a set (the value on which line 475's
`.get` raises `AttributeError`). -/
def ParamsResult.isSet : ParamsResult → Bool
  | .pdict _ => false
  | .pset _ => true

/-- A dict's initial binding, keeping only string keys. -/
def dictInit (k : PyVal) (v : PyVal) : PyDict :=
  match k with
  | .str ks => [(ks, v)]
  | _ => []

/-- Top-level dict entries after the first: `, "key": value` repeated, with
an optional trailing comma; later bindings of the same key win, non-string
keys are validated (hashable) but not stored. -/
def topDictRest : Nat → List Char → PyDict → Option (PyDict × List Char)
  | 0, _, _ => Option.none
  | fuel + 1, cs, acc =>
    match cs with
    | ',' :: r1 =>
      (match skipWs r1 with
       | [] => Option.none
       | c :: r2 =>
         if c = rbrace then some (acc, r2)
         else
           match parseLitVal fuel (c :: r2) with
           | Option.none => Option.none
           | some (k, r3) =>
             if k.hashable then
               match skipWs r3 with
               | ':' :: r4 =>
                 match parseLitVal fuel (skipWs r4) with
                 | Option.none => Option.none
                 | some (v, r5) =>
                   topDictRest fuel (skipWs r5)
                     (match k with | .str ks => acc.insert ks v | _ => acc)
               | _ => Option.none
             else Option.none)
    | c :: r1 => if c = rbrace then some (acc, r1) else Option.none
    | [] => Option.none

/-- Top-level set elements after the first: `, value` repeated, each element
required hashable, with an optional trailing comma. -/
def topSetRest : Nat → List Char → List PyVal → Option (List PyVal × List Char)
  | 0, _, _ => Option.none
  | fuel + 1, cs, acc =>
    match cs with
    | ',' :: r1 =>
      (match skipWs r1 with
       | [] => Option.none
       | c :: r2 =>
         if c = rbrace then some (acc.reverse, r2)
         else
           match parseLitVal fuel (c :: r2) with
           | Option.none => Option.none
           | some (e, r3) =>
             if e.hashable then topSetRest fuel (skipWs r3) (e :: acc)
             else Option.none)
    | c :: r1 => if c = rbrace then some (acc.reverse, r1) else Option.none
    | [] => Option.none

/-- The body of the top-level braces: classify as dict or set from the first
entry (a following `:` means dict), exactly as Python's grammar does; `{}`
is the empty dict; mixing entry forms is a syntax error (the caught path). -/
def parseTopBraces (fuel : Nat) (cs : List Char) : Option (ParamsResult × List Char) :=
  match cs with
  | [] => Option.none
  | c :: rest =>
    if c = rbrace then some (.pdict [], rest)
    else
      match parseLitVal fuel cs with
      | Option.none => Option.none
      | some (k1, r1) =>
        match skipWs r1 with
        | ':' :: r2 =>
          if k1.hashable then
            match parseLitVal fuel (skipWs r2) with
            | Option.none => Option.none
            | some (v1, r3) =>
              (topDictRest fuel (skipWs r3) (dictInit k1 v1)).map
                (fun p => (.pdict p.1, p.2))
          else Option.none
        | r1w =>
          if k1.hashable then
            (topSetRest fuel r1w [k1]).map (fun p => (.pset p.1, p.2))
          else Option.none

/-- `ast.literal_eval` applied to the reassembled parameter-block string
`"{\n" + body + "\n}"`: the result is a dict or a **set** (a block of bare
quoted strings, such as a lone `"a"` line, evaluates successfully to a set —
no warning is raised); `none` is the exception path the inner handler
at lines 334-345 catches, leaving the empty dict. Out of scope (all map to
the caught path and never occur in the quoted-key lines the block is built
from): string escape sequences, adjacent-string concatenation, bytes and
complex literals, and underscores in numeric literals. -/
def literalEvalBlock (s : String) : Option ParamsResult :=
  let fuel := 2 * s.data.length + 8
  match skipWs s.data with
  | c :: rest =>
    if c = lbrace then
      match parseTopBraces fuel (skipWs rest) with
      | some (res, r) => if skipWs r = [] then some res else Option.none
      | Option.none => Option.none
    else Option.none
  | [] => Option.none

/-! ### Section scanners -/

/-- The suffix of the line list starting at the **last** line containing the
buy-params marker (the source scans `reversed(list(enumerate(lines)))` for
`"# Buy hyperspace params:" in line.strip()`). -/
def buySuffix : List String → Option (List String)
  | [] => Option.none
  | l :: ls =>
    match buySuffix ls with
    | some r => some r
    | Option.none =>
      if pyContains (pyStrip l) "# Buy hyperspace params:" then some (l :: ls)
      else Option.none

/-- The forward walk from the marker, classifying lines as buy- or sell-side
and collecting (original, unstripped) lines that begin with a double quote;
ROI/Stoploss markers clear the classification, Trailing-stop / Max-Open-Trades
markers end the walk. -/
def collectParams : List String → Bool → Bool → List String × List String →
    List String × List String
  | [], _, _, acc => acc
  | l :: ls, inBuy, inSell, (bs, ss) =>
    let st := pyStrip l
    if pyContains st "# Buy hyperspace params:" then
      collectParams ls true false (bs, ss)
    else if pyContains st "# Sell hyperspace params:" then
      collectParams ls false true (bs, ss)
    else if pyStarts st "# ROI table:" || pyStarts st "# Stoploss:" then
      collectParams ls false false (bs, ss)
    else if pyStarts st "# Trailing stop:" || pyStarts st "# Max Open Trades:" then
      (bs, ss)
    else if inBuy && pyStarts st "\"" then
      collectParams ls inBuy inSell (bs ++ [l], ss)
    else if inSell && pyStarts st "\"" then
      collectParams ls inBuy inSell (bs, ss ++ [l])
    else
      collectParams ls inBuy inSell (bs, ss)

/-- `"{\n" + "\n".join(section).strip().rstrip(",") + "\n}"`. -/
def buildDictStr (sec : List String) : String :=
  "\x7b\n" ++ (rstripCommas (pyStrip (joinNL sec))).append ("\n" ++ "\x7d")

/-- Buy and sell parameter-block results: locate the last buy marker,
collect the two sections, reassemble and literal-eval each non-empty one.
A failed eval is the caught warning, leaving the empty dict; a successful
eval may also produce a **set**, which is stored as-is (and later crashes
the directional lookup at line 475 when strategy headers exist). -/
def parseParamBlocks (lines : List String) : ParamsResult × ParamsResult :=
  match buySuffix lines with
  | Option.none => (.pdict [], .pdict [])
  | some suf =>
    let bsss := collectParams suf false false ([], [])
    let buyP := if bsss.1 ≠ [] then
        (literalEvalBlock (buildDictStr bsss.1)).getD (.pdict [])
      else .pdict []
    let sellP := if bsss.2 ≠ [] then
        (literalEvalBlock (buildDictStr bsss.2)).getD (.pdict [])
      else .pdict []
    (buyP, sellP)

/-- The regex `│\s*(.*?)\s*│\s*(.*?)\s*│` searched on a stripped row: it
matches exactly when the row holds at least three `│` glyphs, and the two
captures are the trimmed cells between the first/second and second/third
glyphs. -/
def rowMatch (s : String) : Option (String × String) :=
  let parts := splitOnChar '│' s.data
  if 4 ≤ parts.length then
    some (String.mk (trimBoth (parts.getD 1 [])), String.mk (trimBoth (parts.getD 2 [])))
  else Option.none

/-- The per-row contribution of the summary-metrics decoder: a regex match
whose key and value are non-empty and whose key is not the header label
`"Metric"`. -/
def summaryRowEntry (s : String) : Option (String × String) :=
  match rowMatch s with
  | some (k, v) =>
    if k = "" ∨ v = "" ∨ k = "Metric" then Option.none else some (k, v)
  | Option.none => Option.none

/-- The SUMMARY METRICS table walk: arm on the marker, stop at the `└` border
glyph, feed every other non-empty stripped line to the row decoder. -/
def summaryScan : List String → Bool → PyDict → PyDict
  | [], _, m => m
  | l :: ls, inSummary, m =>
    let st := pyStrip l
    if pyContains st "SUMMARY METRICS" then summaryScan ls true m
    else if inSummary && pyStarts st "└" then m
    else if inSummary && st ≠ "" then
      match summaryRowEntry st with
      | some (k, v) => summaryScan ls inSummary (m.insert k (.str v))
      | Option.none => summaryScan ls inSummary m
    else summaryScan ls inSummary m

/-- The BACKTESTING REPORT walk: arm on the marker; at the first stripped
line starting with `"│     TOTAL"` capture it plus each of the next two lines
whose stripped form starts with `"│"`, then stop. -/
def btScan : List String → Bool → List String
  | [], _ => []
  | l :: ls, inBt =>
    let st := pyStrip l
    if pyContains st "BACKTESTING REPORT" then btScan ls true
    else if inBt && pyStarts st "│     TOTAL" then
      st :: ((ls.take 2).map pyStrip).filter (fun t => pyStarts t "│")
    else btScan ls inBt

/-- `[p.strip() for p in row.split("│") if p.strip()]`. -/
def totRowParts (s : String) : List String :=
  ((pySplit '│' s).map pyStrip).filter (fun c => c != "")

/-- The win-rate cell of a captured TOTAL span: only when the span holds at
least three lines is the last non-empty cell of the third line read;
otherwise the sentinel stands. -/
def btWin (totalLines : List String) : String :=
  if 3 ≤ totalLines.length then
    match (totRowParts (totalLines.getD 2 "")).getLast? with
    | some w => w
    | Option.none => "N/A"
  else "N/A"

/-- Decode the captured TOTAL span into the metric map: with at least seven
non-empty cells on the primary row, store trade count, average-profit %,
total-profit % (percent signs stripped), duration minutes and win rate. -/
def btApply (m : PyDict) (totalLines : List String) : PyDict :=
  match totalLines with
  | [] => m
  | first :: _ =>
    let parts := totRowParts first
    if 7 ≤ parts.length then
      (((((m.insert "Trades #" (.str (parts.getD 1 ""))).insert
          "Avg. Profit %" (.str (stripPct (parts.getD 2 "")))).insert
          "Total profit %" (.str (stripPct (parts.getD 4 "")))).insert
          "Duration min" (parse_duration (parts.getD 5 ""))).insert
          "% Win" (.str (btWin totalLines)))
    else m

/-- The four recognized trailing-stop parameters, each initialized to the
sentinel. -/
structure TrailingParams where
  trailing_stop : String := "N/A"
  trailing_stop_positive : String := "N/A"
  trailing_stop_positive_offset : String := "N/A"
  trailing_only_offset_is_reached : String := "N/A"
  deriving DecidableEq, Repr

/-- Set a field only when the matched key is one of the four recognized
names (`if key in trailing_params`). -/
def TrailingParams.setKey (tp : TrailingParams) (k v : String) : TrailingParams :=
  if k = "trailing_stop" then { tp with trailing_stop := v }
  else if k = "trailing_stop_positive" then { tp with trailing_stop_positive := v }
  else if k = "trailing_stop_positive_offset" then { tp with trailing_stop_positive_offset := v }
  else if k = "trailing_only_offset_is_reached" then { tp with trailing_only_offset_is_reached := v }
  else tp

/-- The dict's items in their fixed insertion order. -/
def TrailingParams.items (tp : TrailingParams) : PyDict :=
  [("trailing_stop", .str tp.trailing_stop),
   ("trailing_stop_positive", .str tp.trailing_stop_positive),
   ("trailing_stop_positive_offset", .str tp.trailing_stop_positive_offset),
   ("trailing_only_offset_is_reached", .str tp.trailing_only_offset_is_reached)]

/-- Cut the regex tail `(?:\s*#.*)?$` off a value: drop everything from the
earliest position whose suffix is whitespace followed by `'#'`. -/
def cutComment : List Char → List Char
  | [] => []
  | c :: t =>
    match (c :: t).dropWhile wsChar with
    | '#' :: _ => []
    | _ => c :: cutComment t

/-- The regex `(\w+)\s*=\s*(.*?)(?:\s*#.*)?$` matched at the start of a
stripped line, with both groups `.strip()`ped afterwards. -/
def trailingKvMatch (s : String) : Option (String × String) :=
  let cs := s.data
  let key := cs.takeWhile isWordChar
  if key = [] then Option.none
  else
    match (cs.drop key.length).dropWhile wsChar with
    | '=' :: rest =>
      some (String.mk key, String.mk (trimBoth (cutComment (rest.dropWhile wsChar))))
    | _ => Option.none

/-- The trailing-stop walk: arm on its marker; once inside, a `#` line or a
`max_open_trades` line ends it; `key = value` lines update recognized keys. -/
def trailingScan : List String → Bool → TrailingParams → TrailingParams
  | [], _, tp => tp
  | l :: ls, inTrailing, tp =>
    let st := pyStrip l
    if pyContains st "# Trailing stop:" then trailingScan ls true tp
    else if inTrailing then
      if pyStarts st "#" || pyStarts st "max_open_trades" then tp
      else
        match trailingKvMatch st with
        | some (k, v) => trailingScan ls true (tp.setKey k v)
        | Option.none => trailingScan ls true tp
    else trailingScan ls false tp

/-- The regex `max_open_trades\s*=\s*(\d+)` matched at the start of a
stripped line. -/
def maxOpenMatch (s : String) : Option String :=
  match chopLit ("max_open_trades".data) s.data with
  | Option.none => Option.none
  | some rest =>
    match rest.dropWhile wsChar with
    | '=' :: r2 =>
      let ds := (r2.dropWhile wsChar).takeWhile Char.isDigit
      if ds = [] then Option.none else some (String.mk ds)
    | _ => Option.none

/-- The max-open-trades walk: the first stripped line starting with
`max_open_trades` whose regex matches yields the captured digits. -/
def maxOpenScan : List String → Option String
  | [] => Option.none
  | l :: ls =>
    let st := pyStrip l
    if pyStarts st "max_open_trades" then
      match maxOpenMatch st with
      | some d => some d
      | Option.none => maxOpenScan ls
    else maxOpenScan ls

/-! ### Record normalizer and top-level parse -/

/-- The schema as loaded from external configuration: the three header
groups plus the two config defaults the parser reads. -/
structure HyperConfig where
  CONFIG_HEADERS : List String
  STRATEGY_HEADERS : List String
  RESULTS_HEADERS : List String
  DEFAULT_CONFIG_FILENAME : String
  DEFAULT_LOSS_FUNCTION : String

/-- `RESULT_HEADERS = CONFIG_HEADERS + STRATEGY_HEADERS + RESULTS_HEADERS`. -/
def HyperConfig.RESULT_HEADERS (cfg : HyperConfig) : List String :=
  cfg.CONFIG_HEADERS ++ cfg.STRATEGY_HEADERS ++ cfg.RESULTS_HEADERS

/-- `get_value_from_dict` from the source: default when the key is missing
or its value is `""` or `"#N/A"` (`None` cannot arise in the string-valued
run-context mapping). -/
def get_value_from_dict (d : List (String × String)) (key dflt : String) : String :=
  match d.find? (fun kv => kv.1 = key) with
  | Option.none => dflt
  | some kv => if kv.2 = "" ∨ kv.2 = "#N/A" then dflt else kv.2

/-- The key set of the literal dict passed to `parsed_data.update(...)`. -/
def contextFieldNames : List String :=
  ["Run #", "Strategy", "Config", "Epochs", "random-state", "Timerange",
   "Pairs", "loss_function", "Leverage", "% per trade", "Date and Time"]

/-- The literal dict passed to `parsed_data.update(...)`: run-context fields
plus the freshly captured UTC timestamp (`now` stands for the formatted
`datetime.now(timezone.utc)` reading). -/
def contextPairs (cfg : HyperConfig) (ctx : List (String × String)) (runIndex : Int)
    (reportedRandomState : Option String) (now : String) : PyDict :=
  [("Run #", .str (toString runIndex)),
   ("Strategy", .str (get_value_from_dict ctx "strategy_name" "N/A")),
   ("Config", .str (get_value_from_dict ctx "config_filename" cfg.DEFAULT_CONFIG_FILENAME)),
   ("Epochs", .str (get_value_from_dict ctx "epochs" "")),
   ("random-state", .str (match reportedRandomState with | some s => s | Option.none => "N/A")),
   ("Timerange", .str (get_value_from_dict ctx "timerange" "")),
   ("Pairs", .str (get_value_from_dict ctx "Pairs" "N/A")),
   ("loss_function", .str (get_value_from_dict ctx "loss_function" cfg.DEFAULT_LOSS_FUNCTION)),
   ("Leverage", .str (get_value_from_dict ctx "Leverage" "N/A")),
   ("% per trade", .str (get_value_from_dict ctx "% per trade" "N/A")),
   ("Date and Time", .str now)]

/-- The shared loop shape `for key, value in m.items(): if key in RESULT_HEADERS:
d[key] = value`, used for both the trailing-stop parameters and the final
metric merge. -/
def filteredUpdate (resultHeaders : List String) (d : PyDict) (m : PyDict) : PyDict :=
  m.foldl (fun a kv => if kv.1 ∈ resultHeaders then a.insert kv.1 kv.2 else a) d

/-- Lines 459-483 of the source: initialize every schema field to `"N/A"`,
update with the context dict, fill each strategy header from
`buy_params.get(p, sell_params.get(p, "N/A"))`, then merge every metric whose
key is a schema field. -/
def combine (cfg : HyperConfig) (ctx : List (String × String)) (runIndex : Int)
    (reportedRandomState : Option String) (now : String)
    (buyParams sellParams : PyDict) (metrics : PyDict) : PyDict :=
  let d0 : PyDict := cfg.RESULT_HEADERS.foldl (fun d h => d.insert h (.str "N/A")) []
  let d1 := d0.update (contextPairs cfg ctx runIndex reportedRandomState now)
  let d2 := cfg.STRATEGY_HEADERS.foldl
    (fun d p => d.insert p (buyParams.getD p (sellParams.getD p (.str "N/A")))) d1
  filteredUpdate cfg.RESULT_HEADERS d2 metrics

/-- The metric map accumulated across the four decoders, in source order:
summary table, backtest TOTAL span, trailing-stop parameters (filtered to
schema fields), max-open-trades. -/
def accumulatedMetrics (cfg : HyperConfig) (lines : List String) : PyDict :=
  let m1 := summaryScan lines false []
  let m2 := btApply m1 (btScan lines false)
  let m3 := filteredUpdate cfg.RESULT_HEADERS m2
    (trailingScan lines false {}).items
  match maxOpenScan lines with
  | some d => m3.insert "Max open trades" (.str d)
  | Option.none => m3

/-- The condition under which the source's outer `try` (lines 299, 484-487)
catches an exception and returns `None` on **non-empty** input: a parameter
block literal-evaluates to a set while `STRATEGY_HEADERS` is non-empty, so
the first iteration of the loop at line 474 evaluates `.get` on a set and
raises `AttributeError`. Everything built before that point is discarded by
the handler, so the model checks the condition up front. No other statement
inside the outer `try` can raise: every other failure-prone step has its
own inner handler. -/
def paramsCrash (cfg : HyperConfig) (lines : List String) : Bool :=
  (!cfg.STRATEGY_HEADERS.isEmpty)
    && ((parseParamBlocks lines).1.isSet || (parseParamBlocks lines).2.isSet)

/-- `parse_hyperopt_show_output` from the source. Empty (or absent) report
text returns no record; a non-empty text whose parameter block evaluates to
a set while the schema declares strategy parameters also returns no record
(the `AttributeError` at line 475 escaping to the outer handler, modelled by
`paramsCrash`); otherwise the section scanners and decoders run and the
normalizer merges their output. `now` is the wall-clock timestamp the source
captures with `datetime.now(timezone.utc)` while building the record; the
printing the source interleaves has no effect on the returned record and is
not modelled. -/
def parse_hyperopt_show_output (cfg : HyperConfig) (showOutputContent : String)
    (ctx : List (String × String)) (runIndex : Int)
    (reportedRandomState : Option String) (now : String) : Option PyDict :=
  if showOutputContent = "" then Option.none
  else
    let lines := pySplitlines showOutputContent
    if paramsCrash cfg lines then Option.none
    else
      some (combine cfg ctx runIndex reportedRandomState now
        (parseParamBlocks lines).1.asDict (parseParamBlocks lines).2.asDict
        (accumulatedMetrics cfg lines))

/-- Lookup inside an optional record. -/
def parsedGet (o : Option PyDict) (k : String) : Option PyVal :=
  o.bind (fun r => r.get? k)

/-! ### Dictionary lemmas -/

theorem get?_insert_self (d : PyDict) (k : String) (v : PyVal) :
    (d.insert k v).get? k = some v := by
  induction d with
  | nil => simp [PyDict.insert, PyDict.get?]
  | cons kv d ih =>
    by_cases h : kv.1 = k
    · simp [PyDict.insert, h, PyDict.get?]
    · simp [PyDict.insert, h, PyDict.get?, ih]

theorem get?_insert_ne (d : PyDict) {k j : String} (v : PyVal) (h : k ≠ j) :
    (d.insert k v).get? j = d.get? j := by
  induction d with
  | nil => simp [PyDict.insert, PyDict.get?, h]
  | cons kv d ih =>
    by_cases hk : kv.1 = k
    · subst hk
      simp only [PyDict.insert, if_pos rfl]
      simp [PyDict.get?, h]
    · simp only [PyDict.insert, if_neg hk]
      by_cases hj : kv.1 = j
      · simp [PyDict.get?, hj]
      · simp [PyDict.get?, hj, ih]

theorem mem_keys_iff_get? (d : PyDict) (k : String) :
    k ∈ d.keys ↔ (d.get? k).isSome := by
  induction d with
  | nil => simp [PyDict.keys, PyDict.get?]
  | cons kv d ih =>
    simp only [PyDict.keys, List.map_cons, List.mem_cons, PyDict.get?]
    simp only [PyDict.keys] at ih
    by_cases h : kv.1 = k
    · simp [h]
    · have hne : ¬(k = kv.1) := fun hh => h hh.symm
      simp [h, hne, ih]

theorem insert_cons_self (kv : String × PyVal) (d : PyDict) (v : PyVal) :
    PyDict.insert (kv :: d) kv.1 v = (kv.1, v) :: d := by
  simp [PyDict.insert]

theorem insert_cons_ne (kv : String × PyVal) (d : PyDict) (k : String) (v : PyVal)
    (h : kv.1 ≠ k) : PyDict.insert (kv :: d) k v = kv :: PyDict.insert d k v := by
  simp [PyDict.insert, h]

theorem mem_keys_insert (d : PyDict) (k j : String) (v : PyVal) :
    j ∈ (d.insert k v).keys ↔ j = k ∨ j ∈ d.keys := by
  induction d with
  | nil => simp [PyDict.insert, PyDict.keys]
  | cons kv d ih =>
    by_cases h : kv.1 = k
    · subst h
      rw [insert_cons_self]
      simp only [PyDict.keys, List.map_cons, List.mem_cons]
      tauto
    · rw [insert_cons_ne kv d k v h]
      simp only [PyDict.keys, List.map_cons, List.mem_cons]
      simp only [PyDict.keys] at ih
      rw [ih]
      tauto

theorem nodupKeys_insert (d : PyDict) (k : String) (v : PyVal)
    (h : d.NodupKeys) : (d.insert k v).NodupKeys := by
  induction d with
  | nil => simp [PyDict.insert, PyDict.NodupKeys, PyDict.keys]
  | cons kv d ih =>
    simp only [PyDict.NodupKeys, PyDict.keys, List.map_cons, List.nodup_cons] at h
    obtain ⟨h1, h2⟩ := h
    by_cases hk : kv.1 = k
    · subst hk
      rw [insert_cons_self]
      simp only [PyDict.NodupKeys, PyDict.keys, List.map_cons, List.nodup_cons]
      exact ⟨h1, h2⟩
    · have ht : (PyDict.insert d k v).NodupKeys := ih h2
      rw [insert_cons_ne kv d k v hk]
      simp only [PyDict.NodupKeys, PyDict.keys, List.map_cons, List.nodup_cons]
      refine ⟨fun hm => ?_, ht⟩
      rcases (mem_keys_insert d k kv.1 v).mp hm with hA | hB
      · exact hk hA
      · exact h1 hB

theorem get?_foldl_insert (f : String → PyVal) (L : List String) (d : PyDict)
    (k : String) :
    (L.foldl (fun a p => a.insert p (f p)) d).get? k
      = if k ∈ L then some (f k) else d.get? k := by
  induction L generalizing d with
  | nil => simp
  | cons p L ih =>
    simp only [List.foldl_cons, ih]
    by_cases hk : k ∈ L
    · simp [hk]
    · by_cases hp : k = p
      · subst hp
        simp [hk, get?_insert_self]
      · simp [hk, hp, get?_insert_ne d (f p) (fun hh => hp hh.symm)]

theorem isSome_get?_update (d m : PyDict) (k : String) :
    ((d.update m).get? k).isSome ↔ k ∈ m.keys ∨ (d.get? k).isSome := by
  induction m generalizing d with
  | nil => simp [PyDict.update, PyDict.keys]
  | cons kv m ih =>
    simp only [PyDict.update, List.foldl_cons] at ih ⊢
    rw [ih]
    simp only [PyDict.keys, List.map_cons, List.mem_cons]
    simp only [PyDict.keys] at ih
    by_cases h : kv.1 = k
    · subst h
      simp [get?_insert_self]
    · rw [get?_insert_ne d kv.2 h]
      constructor
      · rintro (hm | hs)
        · exact Or.inl (Or.inr hm)
        · exact Or.inr hs
      · rintro ((he | hm) | hs)
        · exact absurd he.symm h
        · exact Or.inl hm
        · exact Or.inr hs

theorem update_append (d m1 m2 : PyDict) :
    d.update (m1 ++ m2) = (d.update m1).update m2 := by
  simp [PyDict.update, List.foldl_append]

theorem get?_filteredUpdate_not_mem (RH : List String) (d m : PyDict) (k : String)
    (h : k ∉ m.keys) : (filteredUpdate RH d m).get? k = d.get? k := by
  induction m generalizing d with
  | nil => simp [filteredUpdate]
  | cons kv m ih =>
    simp only [PyDict.keys, List.map_cons, List.mem_cons] at h
    push_neg at h
    simp only [filteredUpdate, List.foldl_cons] at ih ⊢
    rw [ih _ (by simpa [PyDict.keys] using h.2)]
    by_cases hin : kv.1 ∈ RH
    · simp only [if_pos hin]
      exact get?_insert_ne d kv.2 (fun hh => h.1 hh.symm)
    · simp only [if_neg hin]

theorem get?_filteredUpdate_congr (RH : List String) (m : PyDict) {d d' : PyDict}
    (k : String) (h : d.get? k = d'.get? k) :
    (filteredUpdate RH d m).get? k = (filteredUpdate RH d' m).get? k := by
  induction m generalizing d d' with
  | nil => simpa [filteredUpdate] using h
  | cons kv m ih =>
    simp only [filteredUpdate, List.foldl_cons] at ih ⊢
    apply ih
    by_cases hin : kv.1 ∈ RH
    · by_cases hk : kv.1 = k
      · subst hk
        simp [hin, get?_insert_self]
      · simp only [if_pos hin]
        rw [get?_insert_ne d kv.2 hk, get?_insert_ne d' kv.2 hk]
        exact h
    · simpa [hin] using h

theorem get?_filteredUpdate_of_nodup (RH : List String) (m : PyDict)
    (hm : m.NodupKeys) (d : PyDict) (k : String) :
    (filteredUpdate RH d m).get? k
      = if k ∈ RH then
          (match PyDict.get? m k with
           | some v => some v
           | Option.none => d.get? k)
        else d.get? k := by
  induction m generalizing d with
  | nil =>
    simp [filteredUpdate, PyDict.get?]
  | cons kv m ih =>
    simp only [PyDict.NodupKeys, PyDict.keys, List.map_cons, List.nodup_cons] at hm
    simp only [filteredUpdate, List.foldl_cons] at ih ⊢
    rw [ih hm.2]
    by_cases hk : kv.1 = k
    · subst hk
      have hnone : PyDict.get? m kv.1 = Option.none := by
        have := (mem_keys_iff_get? m kv.1).not.mp (by simpa [PyDict.keys] using hm.1)
        simpa [Option.not_isSome_iff_eq_none] using this
      by_cases hin : kv.1 ∈ RH
      · simp [hin, hnone, PyDict.get?, get?_insert_self]
      · simp [hin, hnone, PyDict.get?]
    · have hget : PyDict.get? (kv :: m) k = PyDict.get? m k := by
        simp [PyDict.get?, hk]
      by_cases hin : kv.1 ∈ RH
      · simp only [if_pos hin, hget]
        rw [get?_insert_ne d kv.2 hk]
      · simp only [if_neg hin, hget]

theorem isSome_get?_filteredUpdate (RH : List String) (d m : PyDict) (k : String) :
    ((filteredUpdate RH d m).get? k).isSome
      ↔ (d.get? k).isSome ∨ (k ∈ RH ∧ k ∈ m.keys) := by
  induction m generalizing d with
  | nil => simp [filteredUpdate, PyDict.keys]
  | cons kv m ih =>
    simp only [filteredUpdate, List.foldl_cons] at ih ⊢
    rw [ih]
    simp only [PyDict.keys, List.map_cons, List.mem_cons]
    simp only [PyDict.keys] at ih
    by_cases hk : kv.1 = k
    · subst hk
      by_cases hin : kv.1 ∈ RH
      · simp [hin, get?_insert_self]
      · simp [hin]
    · by_cases hin : kv.1 ∈ RH
      · rw [if_pos hin, get?_insert_ne d kv.2 hk]
        constructor
        · rintro (hs | ⟨hr, hm⟩)
          · exact Or.inl hs
          · exact Or.inr ⟨hr, Or.inr hm⟩
        · rintro (hs | ⟨hr, he | hm⟩)
          · exact Or.inl hs
          · exact absurd he.symm hk
          · exact Or.inr ⟨hr, hm⟩
      · rw [if_neg hin]
        constructor
        · rintro (hs | ⟨hr, hm⟩)
          · exact Or.inl hs
          · exact Or.inr ⟨hr, Or.inr hm⟩
        · rintro (hs | ⟨hr, he | hm⟩)
          · exact Or.inl hs
          · exact absurd (he ▸ hr) hin
          · exact Or.inr ⟨hr, hm⟩

theorem nodupKeys_filteredUpdate (RH : List String) (d m : PyDict)
    (h : d.NodupKeys) : (filteredUpdate RH d m).NodupKeys := by
  induction m generalizing d with
  | nil => simpa [filteredUpdate] using h
  | cons kv m ih =>
    simp only [filteredUpdate, List.foldl_cons] at ih ⊢
    apply ih
    by_cases hin : kv.1 ∈ RH
    · simpa [hin] using nodupKeys_insert d kv.1 kv.2 h
    · simpa [hin] using h
/-! ### String and split lemmas -/

theorem strData_append (s t : String) : (s ++ t).data = s.data ++ t.data := by
  cases s
  cases t
  rfl

theorem strMk_data (s : String) : String.mk s.data = s := by
  cases s
  rfl

theorem mem_dropWhile_of_neg (p : Char → Bool) (c : Char) (cs : List Char)
    (hp : p c = false) (h : c ∈ cs) : c ∈ cs.dropWhile p := by
  induction cs with
  | nil => cases h
  | cons x cs ih =>
    by_cases hx : p x
    · rw [List.dropWhile_cons_of_pos hx]
      rcases List.mem_cons.mp h with h1 | h2
      · subst h1
        rw [hp] at hx
        cases hx
      · exact ih h2
    · rw [List.dropWhile_cons_of_neg hx]
      exact h

theorem mem_trimBoth (c : Char) (cs : List Char) (hp : wsChar c = false)
    (h : c ∈ cs) : c ∈ trimBoth cs := by
  unfold trimBoth trimR trimL
  have h1 : c ∈ cs.dropWhile wsChar := mem_dropWhile_of_neg wsChar c cs hp h
  have h2 : c ∈ (cs.dropWhile wsChar).reverse := List.mem_reverse.mpr h1
  have h3 := mem_dropWhile_of_neg wsChar c _ hp h2
  exact List.mem_reverse.mpr h3

theorem pyIntCore_mem (cs : List Char) (acc : Nat) (b : Bool) (n : Nat)
    (h : pyIntCore cs acc b = some n) :
    ∀ c ∈ cs, c.isDigit = true ∨ c = '_' := by
  induction cs generalizing acc b with
  | nil => intro c hc; cases hc
  | cons x cs ih =>
    intro c hc
    simp only [pyIntCore] at h
    by_cases hd : x.isDigit
    · rw [if_pos hd] at h
      rcases List.mem_cons.mp hc with h1 | h2
      · subst h1; exact Or.inl hd
      · exact ih _ _ h c h2
    · rw [if_neg hd] at h
      by_cases hu : x = '_'
      · rw [if_pos hu] at h
        rcases List.mem_cons.mp hc with h1 | h2
        · subst h1; exact Or.inr hu
        · by_cases hb : (b && headDigit cs) = true
          · rw [if_pos hb] at h
            exact ih _ _ h c h2
          · rw [if_neg hb] at h
            cases h
      · rw [if_neg hu] at h
        cases h

theorem pyInt_no_colon (s : String) (a : Int) (h : pyInt s = some a) :
    ':' ∉ s.data := by
  intro hc
  have hmem : ':' ∈ trimBoth s.data := mem_trimBoth ':' s.data (by decide) hc
  have hnd : (':' : Char).isDigit = true ∨ (':' : Char) = '_' → False := by decide
  unfold pyInt at h
  split at h
  next cs heq =>
    rw [heq] at hmem
    rcases List.mem_cons.mp hmem with h1 | h2
    · exact absurd h1 (by decide)
    · rcases Option.map_eq_some'.mp h with ⟨n, hn, _⟩
      exact hnd (pyIntCore_mem cs 0 false n hn ':' h2)
  next cs heq =>
    rw [heq] at hmem
    rcases List.mem_cons.mp hmem with h1 | h2
    · exact absurd h1 (by decide)
    · rcases Option.map_eq_some'.mp h with ⟨n, hn, _⟩
      exact hnd (pyIntCore_mem cs 0 false n hn ':' h2)
  next cs hne1 hne2 =>
    rcases Option.map_eq_some'.mp h with ⟨n, hn, _⟩
    exact hnd (pyIntCore_mem _ 0 false n hn ':' hmem)

theorem splitOnChar_cons_sep (sep : Char) (l : List Char) :
    splitOnChar sep (sep :: l) = [] :: splitOnChar sep l := by
  simp [splitOnChar]

theorem splitOnChar_cons_ne (sep c : Char) (l : List Char) (h : c ≠ sep) :
    splitOnChar sep (c :: l)
      = match splitOnChar sep l with
        | [] => [[c]]
        | hh :: tt => (c :: hh) :: tt := by
  simp [splitOnChar, h]

theorem splitOnChar_ne_nil (sep : Char) (l : List Char) :
    splitOnChar sep l ≠ [] := by
  cases l with
  | nil => simp [splitOnChar]
  | cons c cs =>
    by_cases h : c = sep
    · subst h
      rw [splitOnChar_cons_sep]
      simp
    · rw [splitOnChar_cons_ne sep c cs h]
      cases splitOnChar sep cs with
      | nil => simp
      | cons hh tt => simp

theorem splitOnChar_append_sep (sep : Char) (a r : List Char)
    (h : ∀ x ∈ a, x ≠ sep) :
    splitOnChar sep (a ++ sep :: r) = a :: splitOnChar sep r := by
  induction a with
  | nil =>
    rw [List.nil_append, splitOnChar_cons_sep]
  | cons x a ih =>
    have hx : x ≠ sep := h x (List.mem_cons_self x a)
    have ha : ∀ y ∈ a, y ≠ sep := fun y hy => h y (List.mem_cons_of_mem x hy)
    rw [List.cons_append, splitOnChar_cons_ne sep x _ hx, ih ha]

theorem splitOnChar_no_sep (sep : Char) (l : List Char)
    (h : ∀ x ∈ l, x ≠ sep) : splitOnChar sep l = [l] := by
  induction l with
  | nil => simp [splitOnChar]
  | cons x l ih =>
    have hx : x ≠ sep := h x (List.mem_cons_self x l)
    have hl : ∀ y ∈ l, y ≠ sep := fun y hy => h y (List.mem_cons_of_mem x hy)
    rw [splitOnChar_cons_ne sep x l hx, ih hl]

/-- Interleave the separator back between chunks (inverse of `splitOnChar`). -/
def joinC (sep : Char) : List (List Char) → List Char
  | [] => []
  | [x] => x
  | x :: xs => x ++ sep :: joinC sep xs

theorem joinC_cons_cons (sep : Char) (x y : List Char) (t : List (List Char)) :
    joinC sep (x :: y :: t) = x ++ sep :: joinC sep (y :: t) := rfl

theorem joinC_splitOnChar (sep : Char) (l : List Char) :
    joinC sep (splitOnChar sep l) = l := by
  induction l with
  | nil => rfl
  | cons c l ih =>
    by_cases h : c = sep
    · rw [h, splitOnChar_cons_sep]
      obtain ⟨hh, tt, heq⟩ := List.exists_cons_of_ne_nil (splitOnChar_ne_nil sep l)
      rw [heq, joinC_cons_cons, List.nil_append, ← heq, ih]
    · rw [splitOnChar_cons_ne sep c l h]
      obtain ⟨hh, tt, heq⟩ := List.exists_cons_of_ne_nil (splitOnChar_ne_nil sep l)
      rw [heq]
      cases tt with
      | nil =>
        show c :: hh = c :: l
        have hl := ih
        rw [heq] at hl
        simpa [joinC] using hl
      | cons y t =>
        show (c :: hh) ++ sep :: joinC sep (y :: t) = c :: l
        have hl := ih
        rw [heq, joinC_cons_cons] at hl
        rw [List.cons_append]
        rw [hl]
      
theorem splitOnChar_sepFree (sep : Char) (l : List Char) :
    ∀ p ∈ splitOnChar sep l, sep ∉ p := by
  induction l with
  | nil =>
    intro p hp
    simp [splitOnChar] at hp
    simp [hp]
  | cons c l ih =>
    intro p hp
    by_cases h : c = sep
    · rw [h, splitOnChar_cons_sep] at hp
      rcases List.mem_cons.mp hp with h1 | h2
      · simp [h1]
      · exact ih p h2
    · rw [splitOnChar_cons_ne sep c l h] at hp
      obtain ⟨hh, tt, heq⟩ := List.exists_cons_of_ne_nil (splitOnChar_ne_nil sep l)
      rw [heq] at hp
      rcases List.mem_cons.mp hp with h1 | h2
      · subst h1
        intro hmem
        rcases List.mem_cons.mp hmem with hA | hB
        · exact h hA.symm
        · exact ih hh (heq ▸ List.mem_cons_self hh tt) hB
      · exact ih p (heq ▸ List.mem_cons_of_mem hh h2)

/-! ### Scanner and normalizer lemmas -/

theorem summaryRowEntry_some (s : String) (k v : String)
    (h : summaryRowEntry s = some (k, v)) :
    k ≠ "" ∧ v ≠ "" ∧ k ≠ "Metric" ∧ rowMatch s = some (k, v) := by
  unfold summaryRowEntry at h
  split at h
  next k' v' heq =>
    by_cases hcond : k' = "" ∨ v' = "" ∨ k' = "Metric"
    · rw [if_pos hcond] at h
      cases h
    · rw [if_neg hcond] at h
      push_neg at hcond
      injection h with h'
      injection h' with h1 h2
      subst h1
      subst h2
      exact ⟨hcond.1, hcond.2.1, hcond.2.2, heq⟩
  next heq => cases h

theorem summaryScan_get?_Metric (lines : List String) (b : Bool) (m : PyDict) :
    (summaryScan lines b m).get? "Metric" = m.get? "Metric" := by
  induction lines generalizing b m with
  | nil => rfl
  | cons l ls ih =>
    simp only [summaryScan]
    split
    · exact ih true m
    · split
      · rfl
      · split
        · split
          next k v heq =>
            rw [ih]
            exact get?_insert_ne m (.str v) (summaryRowEntry_some _ _ _ heq).2.2.1
          next heq => exact ih b m
        · exact ih b m

theorem nodupKeys_summaryScan (lines : List String) (b : Bool) (m : PyDict)
    (hm : m.NodupKeys) : (summaryScan lines b m).NodupKeys := by
  induction lines generalizing b m with
  | nil => exact hm
  | cons l ls ih =>
    simp only [summaryScan]
    split
    · exact ih true m hm
    · split
      · exact hm
      · split
        · split
          next k v heq => exact ih b _ (nodupKeys_insert m k (.str v) hm)
          next heq => exact ih b m hm
        · exact ih b m hm

theorem nodupKeys_btApply (m : PyDict) (tl : List String) (hm : m.NodupKeys) :
    (btApply m tl).NodupKeys := by
  cases tl with
  | nil => exact hm
  | cons first rest =>
    simp only [btApply]
    split
    · exact nodupKeys_insert _ _ _ (nodupKeys_insert _ _ _ (nodupKeys_insert _ _ _
        (nodupKeys_insert _ _ _ (nodupKeys_insert _ _ _ hm))))
    · exact hm

theorem trailingItems_keys (tp : TrailingParams) :
    (tp.items).keys = ["trailing_stop", "trailing_stop_positive",
      "trailing_stop_positive_offset", "trailing_only_offset_is_reached"] := rfl

theorem nodupKeys_accumulatedMetrics (cfg : HyperConfig) (lines : List String) :
    (accumulatedMetrics cfg lines).NodupKeys := by
  have h1 : (summaryScan lines false []).NodupKeys :=
    nodupKeys_summaryScan _ _ [] (by simp [PyDict.NodupKeys, PyDict.keys])
  have h2 := nodupKeys_btApply _ (btScan lines false) h1
  have h3 := nodupKeys_filteredUpdate cfg.RESULT_HEADERS _
    (trailingScan lines false {}).items h2
  simp only [accumulatedMetrics]
  cases hmo : maxOpenScan lines with
  | some d =>
    simp only [hmo]
    exact nodupKeys_insert _ _ _ h3
  | none =>
    simp only [hmo]
    exact h3

theorem btApply_get?_totProfit (m : PyDict) (first : String) (rest : List String)
    (h7 : 7 ≤ (totRowParts first).length) :
    (btApply m (first :: rest)).get? "Total profit %"
      = some (.str (stripPct ((totRowParts first).getD 4 ""))) := by
  simp only [btApply, if_pos h7]
  rw [get?_insert_ne _ _ (by decide)]
  rw [get?_insert_ne _ _ (by decide)]
  exact get?_insert_self _ _ _

theorem btApply_get?_win (m : PyDict) (first : String) (rest : List String)
    (h7 : 7 ≤ (totRowParts first).length) :
    (btApply m (first :: rest)).get? "% Win"
      = some (.str (btWin (first :: rest))) := by
  simp only [btApply, if_pos h7]
  exact get?_insert_self _ _ _

theorem accMetrics_preserve_bt (cfg : HyperConfig) (lines : List String)
    (k : String) (hk1 : k ∉ (["trailing_stop", "trailing_stop_positive",
      "trailing_stop_positive_offset", "trailing_only_offset_is_reached"] : List String))
    (hk2 : k ≠ "Max open trades") :
    (accumulatedMetrics cfg lines).get? k
      = (btApply (summaryScan lines false []) (btScan lines false)).get? k := by
  simp only [accumulatedMetrics]
  have hni : k ∉ ((trailingScan lines false {}).items).keys := by
    rw [trailingItems_keys]
    exact hk1
  cases hmo : maxOpenScan lines with
  | some d =>
    simp only [hmo]
    rw [get?_insert_ne _ _ (fun hh => hk2 hh.symm)]
    exact get?_filteredUpdate_not_mem _ _ _ _ hni
  | none =>
    simp only [hmo]
    exact get?_filteredUpdate_not_mem _ _ _ _ hni

theorem combine_get?_isSome (cfg : HyperConfig) (ctx : List (String × String))
    (idx : Int) (seed : Option String) (now : String) (bp sp m : PyDict)
    (k : String) :
    ((combine cfg ctx idx seed now bp sp m).get? k).isSome
      ↔ k ∈ cfg.RESULT_HEADERS ∨ k ∈ contextFieldNames := by
  have hsub : k ∈ cfg.STRATEGY_HEADERS → k ∈ cfg.RESULT_HEADERS := by
    intro hj
    simp only [HyperConfig.RESULT_HEADERS, List.mem_append]
    tauto
  simp only [combine]
  rw [isSome_get?_filteredUpdate, get?_foldl_insert]
  by_cases hSH : k ∈ cfg.STRATEGY_HEADERS
  · simp [hSH, hsub hSH]
  · rw [if_neg hSH, isSome_get?_update,
      show (contextPairs cfg ctx idx seed now).keys = contextFieldNames from rfl,
      get?_foldl_insert]
    by_cases hRH : k ∈ cfg.RESULT_HEADERS
    · simp [hRH]
    · simp [hRH, PyDict.get?]

theorem combine_get?_metric (cfg : HyperConfig) (ctx : List (String × String))
    (idx : Int) (seed : Option String) (now : String) (bp sp m : PyDict)
    (k : String) (hm : m.NodupKeys) (hk : k ∈ cfg.RESULT_HEADERS) (v : PyVal)
    (hv : PyDict.get? m k = some v) :
    (combine cfg ctx idx seed now bp sp m).get? k = some v := by
  simp only [combine]
  rw [get?_filteredUpdate_of_nodup _ _ hm, if_pos hk, hv]

theorem parse_some (cfg : HyperConfig) (content : String)
    (ctx : List (String × String)) (idx : Int) (seed : Option String)
    (now : String) (h : content ≠ "")
    (hc : paramsCrash cfg (pySplitlines content) = false) :
    parse_hyperopt_show_output cfg content ctx idx seed now
      = some (combine cfg ctx idx seed now
          (parseParamBlocks (pySplitlines content)).1.asDict
          (parseParamBlocks (pySplitlines content)).2.asDict
          (accumulatedMetrics cfg (pySplitlines content))) := by
  simp [parse_hyperopt_show_output, h, hc]

theorem parse_none_of_crash (cfg : HyperConfig) (content : String)
    (ctx : List (String × String)) (idx : Int) (seed : Option String)
    (now : String) (hc : paramsCrash cfg (pySplitlines content) = true) :
    parse_hyperopt_show_output cfg content ctx idx seed now = Option.none := by
  by_cases h : content = ""
  · simp [parse_hyperopt_show_output, h]
  · simp [parse_hyperopt_show_output, h, hc]

/-- Whether a character list starts with a whitespace character. -/
def headWs : List Char → Bool
  | [] => false
  | c :: _ => wsChar c

/-! ### Duration-parser characterization -/

theorem parse_duration_three (s1 s2 s3 : String) (a b c : Int)
    (h1 : pyInt s1 = some a) (h2 : pyInt s2 = some b) (h3 : pyInt s3 = some c) :
    parse_duration (s1 ++ ":" ++ s2 ++ ":" ++ s3)
      = .int (roundHalfEvenDiv60 (a * 3600 + b * 60 + c)) := by
  have hn1 : ∀ x ∈ s1.data, x ≠ ':' := fun x hx he => pyInt_no_colon s1 a h1 (he ▸ hx)
  have hn2 : ∀ x ∈ s2.data, x ≠ ':' := fun x hx he => pyInt_no_colon s2 b h2 (he ▸ hx)
  have hn3 : ∀ x ∈ s3.data, x ≠ ':' := fun x hx he => pyInt_no_colon s3 c h3 (he ▸ hx)
  have hdata : (s1 ++ ":" ++ s2 ++ ":" ++ s3).data
      = s1.data ++ ':' :: (s2.data ++ ':' :: s3.data) := by
    simp only [strData_append]
    simp [List.append_assoc]
  have hsplit : pySplit ':' (s1 ++ ":" ++ s2 ++ ":" ++ s3) = [s1, s2, s3] := by
    unfold pySplit
    rw [hdata, splitOnChar_append_sep ':' s1.data _ hn1,
        splitOnChar_append_sep ':' s2.data _ hn2,
        splitOnChar_no_sep ':' s3.data hn3]
    simp [strMk_data]
  unfold parse_duration
  rw [hsplit]
  simp only [allInts, h1, h2, h3]

theorem parse_duration_two (s1 s2 : String) (a b : Int)
    (h1 : pyInt s1 = some a) (h2 : pyInt s2 = some b) :
    parse_duration (s1 ++ ":" ++ s2) = .int (roundHalfEvenDiv60 (a * 60 + b)) := by
  have hn1 : ∀ x ∈ s1.data, x ≠ ':' := fun x hx he => pyInt_no_colon s1 a h1 (he ▸ hx)
  have hn2 : ∀ x ∈ s2.data, x ≠ ':' := fun x hx he => pyInt_no_colon s2 b h2 (he ▸ hx)
  have hdata : (s1 ++ ":" ++ s2).data = s1.data ++ ':' :: s2.data := by
    simp only [strData_append]
    simp [List.append_assoc]
  have hsplit : pySplit ':' (s1 ++ ":" ++ s2) = [s1, s2] := by
    unfold pySplit
    rw [hdata, splitOnChar_append_sep ':' s1.data _ hn1,
        splitOnChar_no_sep ':' s2.data hn2]
    simp [strMk_data]
  unfold parse_duration
  rw [hsplit]
  simp only [allInts, h1, h2]

theorem roundHalfEvenDiv60_nearest (t : Int) :
    (60 * roundHalfEvenDiv60 t - t).natAbs ≤ 30 := by
  simp only [roundHalfEvenDiv60]
  split_ifs <;> omega

theorem parse_duration_arity (s : String) (parts : List Int)
    (h : allInts (pySplit ':' s) = some parts) (hl2 : parts.length ≠ 2)
    (hl3 : parts.length ≠ 3) : parse_duration s = .noneV := by
  unfold parse_duration
  rw [h]
  rcases parts with _ | ⟨a, _ | ⟨b, _ | ⟨c, _ | ⟨d, t⟩⟩⟩⟩ <;> simp_all

/-! ### Claim C2 -/

/-- C2, counterexample: the claim says every input that is not a 2- or
3-component integer string yields the sentinel `"N/A"`, but an input whose
components all parse as integers while numbering one or four (such as `"5"`
or `"1:2:3:4"`) falls off the end of the `if`/`elif` chain and returns Python
`None`, not `"N/A"`. -/
theorem C2_counterexample :
    parse_duration "5" = .noneV ∧ parse_duration "1:2:3:4" = .noneV ∧
      (PyVal.noneV ≠ PyVal.str "N/A") := by
  refine ⟨by decide, by decide, by decide⟩

/-- C2, amended: `parse_duration` behaves as claimed on 2- and 3-component
integer strings — the total is rounded to the nearest minute (ties to even),
never truncated — and returns `"N/A"` whenever some component fails integer
parsing; but for inputs whose components all parse as integers with any
other component count it returns Python `None` (no value), not the `"N/A"`
sentinel. The named examples hold: `"1:29:00"` gives `89`, `"2:05"` gives
`2`, `"61:30"` gives `62`, `"abc"` and `""` give `"N/A"`. -/
theorem C2_amended :
    parse_duration "1:29:00" = .int 89 ∧
    parse_duration "2:05" = .int 2 ∧
    parse_duration "61:30" = .int 62 ∧
    parse_duration "abc" = .str "N/A" ∧
    parse_duration "" = .str "N/A" ∧
    (∀ (s1 s2 s3 : String) (a b c : Int),
      pyInt s1 = some a → pyInt s2 = some b → pyInt s3 = some c →
      parse_duration (s1 ++ ":" ++ s2 ++ ":" ++ s3)
        = .int (roundHalfEvenDiv60 (a * 3600 + b * 60 + c))) ∧
    (∀ (s1 s2 : String) (a b : Int),
      pyInt s1 = some a → pyInt s2 = some b →
      parse_duration (s1 ++ ":" ++ s2) = .int (roundHalfEvenDiv60 (a * 60 + b))) ∧
    (∀ t : Int, (60 * roundHalfEvenDiv60 t - t).natAbs ≤ 30) ∧
    (∀ (s : String) (parts : List Int),
      allInts (pySplit ':' s) = some parts → parts.length ≠ 2 →
      parts.length ≠ 3 → parse_duration s = .noneV) := by
  refine ⟨by decide, by decide, by decide, by decide, by decide,
    parse_duration_three, parse_duration_two, roundHalfEvenDiv60_nearest,
    parse_duration_arity⟩

/-- C2, witness: the rounding branch of the amended theorem applied at the
concrete components 1, 2, 3. -/
theorem C2_witness :
    parse_duration ("1" ++ ":" ++ "2" ++ ":" ++ "3")
      = .int (roundHalfEvenDiv60 (1 * 3600 + 2 * 60 + 3)) :=
  C2_amended.2.2.2.2.2.1 "1" "2" "3" 1 2 3 (by decide) (by decide) (by decide)

/-! ### Claim C6 -/

/-- Fuelled splitter on runs of two or more whitespace characters. -/
def wsRunSplitGo : Nat → List Char → List Char → List (List Char)
  | 0, _, cur => [cur.reverse]
  | _ + 1, [], cur => [cur.reverse]
  | fuel + 1, c :: rest, cur =>
    if wsChar c && headWs rest then
      cur.reverse :: wsRunSplitGo fuel (rest.dropWhile wsChar) []
    else
      wsRunSplitGo fuel rest (c :: cur)

/-- Modelled from the spec, for comparison only: split a row on runs of two
or more whitespace characters (the fallback the spec describes for rows
without the box-drawing glyph). -/
def wsRunSplit (s : String) : List String :=
  (wsRunSplitGo (s.data.length + 1) s.data []).map String.mk

/-- Modelled from the spec, for comparison only: the spec's row decoding —
split on the vertical glyph when one is present, else on whitespace runs;
trim the cells; a row yields a pair exactly when at least two non-empty
cells remain, with the first as the label and the last as the value. -/
def specRowPair (s : String) : Option (String × String) :=
  let raw := if s.data.contains '│' then pySplit '│' s else wsRunSplit s
  let cells := (raw.map pyStrip).filter (fun c => c != "")
  match cells with
  | k :: _ :: _ =>
    some (k, match cells.getLast? with | some w => w | Option.none => "")
  | _ => Option.none

/-- C6, counterexample: a summary row separated by a two-space run and
containing no `│` glyph. The spec's decoder yields the pair
`("Total trades", "42")`, but the code's regex `│\s*(.*?)\s*│\s*(.*?)\s*│`
cannot match a glyph-free row, so the scan stores nothing. -/
theorem C6_counterexample :
    specRowPair "Total trades  42" = some ("Total trades", "42") ∧
    summaryRowEntry "Total trades  42" = Option.none ∧
    summaryScan ["SUMMARY METRICS", "Total trades  42"] false [] = [] := by
  refine ⟨by decide, by decide, by decide⟩

/-- C6, amended: the summary-row decoder splits only on the `│` glyph and
has no whitespace-run fallback: a row without the glyph decodes to nothing,
and a row matches exactly when it contains at least three glyphs, the label
being the trimmed cell between the first and second glyph and the value the
trimmed cell between the second and third (a pair is stored only when both
are non-empty and the label is not `"Metric"`). -/
theorem C6_amended :
    (∀ s : String, '│' ∉ s.data → summaryRowEntry s = Option.none) ∧
    (∀ (s : String) (k v : String),
      rowMatch s = some (k, v)
        ↔ ∃ a b c rest : List Char,
            s.data = a ++ '│' :: (b ++ '│' :: (c ++ '│' :: rest))
              ∧ '│' ∉ a ∧ '│' ∉ b ∧ '│' ∉ c
              ∧ k = String.mk (trimBoth b) ∧ v = String.mk (trimBoth c)) := by
  constructor
  · intro s h
    have hsp : splitOnChar '│' s.data = [s.data] :=
      splitOnChar_no_sep '│' s.data (fun x hx he => h (he ▸ hx))
    unfold summaryRowEntry rowMatch
    rw [hsp]
    simp
  · intro s k v
    constructor
    · intro h
      unfold rowMatch at h
      by_cases hlen : 4 ≤ (splitOnChar '│' s.data).length
      · rw [if_pos hlen] at h
        injection h with h'
        injection h' with hk hv
        rcases hp : splitOnChar '│' s.data with _ | ⟨p0, _ | ⟨p1, _ | ⟨p2, _ | ⟨p3, ps⟩⟩⟩⟩ <;>
          rw [hp] at hlen <;> simp at hlen
        rw [hp] at hk hv
        have hjoin := joinC_splitOnChar '│' s.data
        rw [hp, joinC_cons_cons, joinC_cons_cons, joinC_cons_cons] at hjoin
        refine ⟨p0, p1, p2, joinC '│' (p3 :: ps), hjoin.symm, ?_, ?_, ?_, hk.symm, hv.symm⟩
        · exact splitOnChar_sepFree '│' s.data p0 (hp ▸ List.mem_cons_self _ _)
        · exact splitOnChar_sepFree '│' s.data p1
            (hp ▸ List.mem_cons_of_mem _ (List.mem_cons_self _ _))
        · exact splitOnChar_sepFree '│' s.data p2
            (hp ▸ List.mem_cons_of_mem _ (List.mem_cons_of_mem _ (List.mem_cons_self _ _)))
      · rw [if_neg hlen] at h
        cases h
    · rintro ⟨a, b, c, rest, hdata, ha, hb, hc, hk, hv⟩
      unfold rowMatch
      rw [hdata,
        splitOnChar_append_sep '│' a _ (fun x hx he => ha (he ▸ hx)),
        splitOnChar_append_sep '│' b _ (fun x hx he => hb (he ▸ hx)),
        splitOnChar_append_sep '│' c _ (fun x hx he => hc (he ▸ hx))]
      have hlen : 1 ≤ (splitOnChar '│' rest).length :=
        List.length_pos.mpr (splitOnChar_ne_nil '│' rest)
      rw [if_pos (by simp; omega)]
      subst hk
      subst hv
      rfl

/-- C6, witness: the no-glyph branch of the amended theorem at the concrete
row `"ab"`. -/
theorem C6_witness : summaryRowEntry "ab" = Option.none :=
  C6_amended.1 "ab" (by decide)

/-! ### Claim C10 -/

/-- C10, confirmed: a summary-table row whose label is the header literal
`"Metric"`, or whose label or value cell trims to empty, contributes no
entry, and consequently the whole summary scan never binds the key
`"Metric"` in the metric map. -/
theorem C10_confirmed :
    (∀ (s k v : String), summaryRowEntry s = some (k, v) →
      k ≠ "Metric" ∧ k ≠ "" ∧ v ≠ "") ∧
    (∀ (lines : List String) (b : Bool) (m : PyDict),
      (summaryScan lines b m).get? "Metric" = m.get? "Metric") := by
  constructor
  · intro s k v h
    obtain ⟨h1, h2, h3, _⟩ := summaryRowEntry_some s k v h
    exact ⟨h3, h1, h2⟩
  · exact summaryScan_get?_Metric

/-- C10, witness: the row-level part of the theorem applied to the concrete
row `"│ a │ b │"`, which decodes to the pair `("a", "b")`. -/
theorem C10_witness :
    ("a" : String) ≠ "Metric" ∧ ("a" : String) ≠ "" ∧ ("b" : String) ≠ "" :=
  C10_confirmed.1 "│ a │ b │" "a" "b" (by decide)

/-! ### Claim C7 -/

theorem btScan_skip_pre (pre rest : List String)
    (h : ∀ p ∈ pre, pyContains (pyStrip p) "BACKTESTING REPORT" = false) :
    btScan (pre ++ rest) false = btScan rest false := by
  induction pre with
  | nil => rfl
  | cons p pre ih =>
    have hp := h p (List.mem_cons_self p pre)
    have ih' := ih (fun q hq => h q (List.mem_cons_of_mem p hq))
    rw [List.cons_append]
    simp [btScan, hp, ih']

theorem btScan_skip_mid (mid rest : List String)
    (h : ∀ x ∈ mid, pyStarts (pyStrip x) "│     TOTAL" = false) :
    btScan (mid ++ rest) true = btScan rest true := by
  induction mid with
  | nil => rfl
  | cons x mid ih =>
    have hx := h x (List.mem_cons_self x mid)
    have ih' := ih (fun q hq => h q (List.mem_cons_of_mem x hq))
    rw [List.cons_append]
    by_cases hc : pyContains (pyStrip x) "BACKTESTING REPORT" = true
    · simp [btScan, hc, ih']
    · simp [btScan, hc, hx, ih']

/-- C7, amended: the TOTAL-row scanner arms at the first line containing
`"BACKTESTING REPORT"` and fires at the first later line whose **stripped
content starts with the exact prefix `"│     TOTAL"`** (glyph plus five
spaces) — merely containing the token `TOTAL` does not select a row — and it
captures that row plus each of the up-to-two immediately following lines
whose stripped content starts with `"│"`. -/
theorem C7_amended (pre mid post : List String) (marker total : String)
    (hpre : ∀ p ∈ pre, pyContains (pyStrip p) "BACKTESTING REPORT" = false)
    (hmark : pyContains (pyStrip marker) "BACKTESTING REPORT" = true)
    (hmid : ∀ x ∈ mid, pyStarts (pyStrip x) "│     TOTAL" = false)
    (htot1 : pyStarts (pyStrip total) "│     TOTAL" = true)
    (htot2 : pyContains (pyStrip total) "BACKTESTING REPORT" = false) :
    btScan (pre ++ marker :: (mid ++ total :: post)) false
      = pyStrip total
          :: ((post.take 2).map pyStrip).filter (fun t => pyStarts t "│") := by
  rw [btScan_skip_pre pre _ hpre]
  have h1 : btScan (marker :: (mid ++ total :: post)) false
      = btScan (mid ++ total :: post) true := by
    simp [btScan, hmark]
  rw [h1, btScan_skip_mid mid _ hmid]
  simp [btScan, htot2, htot1]

/-- Modelled from the spec, for comparison only: scan forward from a
`"BACKTESTING REPORT"` marker for the first row whose content contains the
literal token `"TOTAL"`. -/
def specTotalSelect : List String → Bool → Option String
  | [], _ => Option.none
  | l :: ls, inBt =>
    if pyContains (pyStrip l) "BACKTESTING REPORT" then specTotalSelect ls true
    else if inBt && pyContains (pyStrip l) "TOTAL" then some (pyStrip l)
    else specTotalSelect ls inBt

/-- C7, counterexample: after the marker, a row that contains `TOTAL` but is
not prefixed by `"│     TOTAL"` (here only one space before the token). The
spec's selection picks it; the code's scanner captures nothing. -/
theorem C7_counterexample :
    specTotalSelect ["BACKTESTING REPORT", "│ TOTAL │ 1 │"] false
        = some "│ TOTAL │ 1 │" ∧
    pyContains "│ TOTAL │ 1 │" "TOTAL" = true ∧
    btScan ["BACKTESTING REPORT", "│ TOTAL │ 1 │"] false = [] := by
  refine ⟨by decide, by decide, by decide⟩

/-- C7, witness: the amended scanner characterization at a concrete report
fragment with one non-matching middle row and three trailing rows (only the
first two of which are inspected, and only glyph rows kept). -/
theorem C7_witness :
    btScan (["x"] ++ "BACKTESTING REPORT"
        :: (["│ EUR │ 1 │"] ++ "│     TOTAL │ 9 │" :: ["│ 2 │", "z", "w"])) false
      = pyStrip "│     TOTAL │ 9 │"
          :: ((["│ 2 │", "z", "w"].take 2).map pyStrip).filter
              (fun t => pyStarts t "│") :=
  C7_amended ["x"] ["│ EUR │ 1 │"] ["│ 2 │", "z", "w"] "BACKTESTING REPORT"
    "│     TOTAL │ 9 │" (by decide) (by decide) (by decide) (by decide) (by decide)

/-! ### Claim C8 -/

/-- C8, amended: when the primary TOTAL row parses (at least seven non-empty
cells), the win-rate metric is the last non-empty cell of the **third**
captured line when the span holds three lines (two continuation rows); with
zero or one continuation rows it is set to the sentinel `"N/A"` — it is never
read from the primary row's last cell. -/
theorem C8_amended :
    (∀ (cfg : HyperConfig) (content : String) (ctx : List (String × String))
        (idx : Int) (seed : Option String) (now : String) (first : String)
        (rest : List String),
      content ≠ "" →
      paramsCrash cfg (pySplitlines content) = false →
      btScan (pySplitlines content) false = first :: rest →
      7 ≤ (totRowParts first).length →
      "% Win" ∈ cfg.RESULT_HEADERS →
      parsedGet (parse_hyperopt_show_output cfg content ctx idx seed now) "% Win"
        = some (.str (btWin (first :: rest)))) ∧
    (∀ totalLines : List String, totalLines.length ≤ 2 → btWin totalLines = "N/A") := by
  constructor
  · intro cfg content ctx idx seed now first rest h hcrash hbt h7 hrh
    rw [parse_some cfg content ctx idx seed now h hcrash]
    simp only [parsedGet, Option.bind_some]
    have hacc : (accumulatedMetrics cfg (pySplitlines content)).get? "% Win"
        = some (.str (btWin (first :: rest))) := by
      rw [accMetrics_preserve_bt cfg _ "% Win" (by decide) (by decide), hbt]
      exact btApply_get?_win _ first rest h7
    exact combine_get?_metric cfg ctx idx seed now _ _ _ "% Win"
      (nodupKeys_accumulatedMetrics cfg _) hrh _ hacc
  · intro totalLines hlen
    unfold btWin
    rw [if_neg (by omega)]

def cfgC8 : HyperConfig := ⟨[], [], ["% Win"], "c.json", "Loss"⟩

def contentC8a : String :=
  "BACKTESTING REPORT\n│     TOTAL │ 42 │ 1.23% │ 50 │ 7.89% │ 1:15:00 │ 60.0 │\n"

def contentC8b : String :=
  "BACKTESTING REPORT\n│     TOTAL │ 42 │ 1.23% │ 50 │ 7.89% │ 1:15:00 │ 60.0 │\n│ c │\n│ 55.5 │\n"

/-- C8, counterexample: a report whose TOTAL row parses and has `60.0` as its
last cell but no continuation rows. The claim says the win rate is read from
the primary row's last cell; the code leaves it at the sentinel `"N/A"`. -/
theorem C8_counterexample :
    parsedGet (parse_hyperopt_show_output cfgC8 contentC8a [] 1 Option.none "T")
        "% Win" = some (.str "N/A") ∧
    (totRowParts "│     TOTAL │ 42 │ 1.23% │ 50 │ 7.89% │ 1:15:00 │ 60.0 │").getLast?
        = some "60.0" ∧
    ("60.0" : String) ≠ "N/A" := by
  refine ⟨by decide, by decide, by decide⟩

/-- C8, witness: the amended theorem at a concrete report with two
continuation rows, where the win rate comes from the third captured line. -/
theorem C8_witness :
    parsedGet (parse_hyperopt_show_output cfgC8 contentC8b [] 1 Option.none "T")
        "% Win"
      = some (.str (btWin
          ["│     TOTAL │ 42 │ 1.23% │ 50 │ 7.89% │ 1:15:00 │ 60.0 │",
           "│ c │", "│ 55.5 │"])) :=
  C8_amended.1 cfgC8 contentC8b [] 1 Option.none "T"
    "│     TOTAL │ 42 │ 1.23% │ 50 │ 7.89% │ 1:15:00 │ 60.0 │"
    ["│ c │", "│ 55.5 │"] (by decide) (by decide) (by decide) (by decide) (by decide)

/-! ### Claim C5 -/

/-- C5, confirmed: when the summary-metrics table yields a
`"Total profit %"` value and the backtest TOTAL row also parses, the final
record holds the value decoded from the later-parsed backtest-total fragment
(the percent-stripped fifth cell of the TOTAL row), not the summary value. -/
theorem C5_confirmed (cfg : HyperConfig) (content : String)
    (ctx : List (String × String)) (idx : Int) (seed : Option String)
    (now : String) (v1 : PyVal) (first : String) (rest : List String)
    (h : content ≠ "")
    (hcrash : paramsCrash cfg (pySplitlines content) = false)
    (hrh : "Total profit %" ∈ cfg.RESULT_HEADERS)
    (_hsum : (summaryScan (pySplitlines content) false []).get? "Total profit %"
        = some v1)
    (hbt : btScan (pySplitlines content) false = first :: rest)
    (h7 : 7 ≤ (totRowParts first).length) :
    parsedGet (parse_hyperopt_show_output cfg content ctx idx seed now)
        "Total profit %"
      = some (.str (stripPct ((totRowParts first).getD 4 ""))) := by
  rw [parse_some cfg content ctx idx seed now h hcrash]
  simp only [parsedGet, Option.bind_some]
  have hacc : (accumulatedMetrics cfg (pySplitlines content)).get? "Total profit %"
      = some (.str (stripPct ((totRowParts first).getD 4 ""))) := by
    rw [accMetrics_preserve_bt cfg _ "Total profit %" (by decide) (by decide), hbt]
    exact btApply_get?_totProfit _ first rest h7
  exact combine_get?_metric cfg ctx idx seed now _ _ _ "Total profit %"
    (nodupKeys_accumulatedMetrics cfg _) hrh _ hacc

def cfgC5 : HyperConfig := ⟨[], [], ["Total profit %"], "c.json", "Loss"⟩

def contentC5 : String :=
  "SUMMARY METRICS\n│ Total profit % │ 1.5 │\n└x\nBACKTESTING REPORT\n│     TOTAL │ 42 │ 1.23% │ 50 │ 7.89% │ 1:15:00 │ 60.0 │\n"

/-- C5, witness: the theorem at a concrete report whose summary table says
`1.5` and whose TOTAL row says `7.89%`; the record holds `7.89`. -/
theorem C5_witness :
    parsedGet (parse_hyperopt_show_output cfgC5 contentC5 [] 1 Option.none "T")
        "Total profit %"
      = some (.str (stripPct ((totRowParts
          "│     TOTAL │ 42 │ 1.23% │ 50 │ 7.89% │ 1:15:00 │ 60.0 │").getD 4 ""))) :=
  C5_confirmed cfgC5 contentC5 [] 1 Option.none "T" (.str "1.5")
    "│     TOTAL │ 42 │ 1.23% │ 50 │ 7.89% │ 1:15:00 │ 60.0 │" []
    (by decide) (by decide) (by decide) (by decide) (by decide) (by decide)

/-! ### Claim C1 -/

/-- C1, amended: on every report text **on which parsing succeeds** (a
record is returned), the record's key set is the schema's field set united
with the eleven fixed context field names the normalizer unconditionally
writes (`Run #`, `Strategy`, `Config`, `Epochs`, `random-state`,
`Timerange`, `Pairs`, `loss_function`, `Leverage`, `% per trade`,
`Date and Time`); in particular every schema field is present, but a schema
that omits one of those context names still receives it as an extra key. -/
theorem C1_amended (cfg : HyperConfig) (content : String)
    (ctx : List (String × String)) (idx : Int) (seed : Option String)
    (now : String) (r : PyDict)
    (h : parse_hyperopt_show_output cfg content ctx idx seed now = some r) :
    ∀ k, ((PyDict.get? r k).isSome
      ↔ (k ∈ cfg.RESULT_HEADERS ∨ k ∈ contextFieldNames)) := by
  simp only [parse_hyperopt_show_output] at h
  by_cases h0 : content = ""
  · rw [if_pos h0] at h
    cases h
  · rw [if_neg h0] at h
    by_cases hc : paramsCrash cfg (pySplitlines content) = true
    · rw [if_pos hc] at h
      cases h
    · rw [if_neg hc] at h
      injection h with h'
      subst h'
      intro k
      exact combine_get?_isSome cfg ctx idx seed now _ _ _ k

def cfgC1 : HyperConfig := ⟨[], [], ["Foo"], "c.json", "Loss"⟩

/-- C1, counterexample: with the valid one-field schema `["Foo"]` and the
(successfully parsed) non-empty report `"x"`, the record contains the key
`"Run #"`, which is outside the schema — refuting "no key outside the schema
appears in the record". -/
theorem C1_counterexample :
    parsedGet (parse_hyperopt_show_output cfgC1 "x" [] 1 Option.none "T") "Run #"
        = some (.str "1") ∧
    "Run #" ∉ cfgC1.RESULT_HEADERS := by
  refine ⟨by decide, by decide⟩

def cfgC1w : HyperConfig := ⟨["Epochs"], ["p1"], ["Foo"], "c.json", "Loss"⟩

/-- The record the parser produces for `cfgC1w` on the report `"x"`. -/
def recC1w : PyDict :=
  [("Epochs", .str ""), ("p1", .str "N/A"), ("Foo", .str "N/A"),
   ("Run #", .str "1"), ("Strategy", .str "N/A"), ("Config", .str "c.json"),
   ("random-state", .str "N/A"), ("Timerange", .str ""), ("Pairs", .str "N/A"),
   ("loss_function", .str "Loss"), ("Leverage", .str "N/A"),
   ("% per trade", .str "N/A"), ("Date and Time", .str "T")]

/-- C1, witness: the amended theorem at a concrete three-group schema, the
concretely computed record, and the key `"Run #"`. -/
theorem C1_witness :
    (PyDict.get? recC1w "Run #").isSome
      ↔ ("Run #" ∈ cfgC1w.RESULT_HEADERS ∨ "Run #" ∈ contextFieldNames) :=
  C1_amended cfgC1w "x" [] 1 Option.none "T" recC1w (by decide) "Run #"

/-! ### Claim C3 -/

def cfgC3p : HyperConfig := ⟨[], ["p"], [], "c.json", "Loss"⟩

def contentC3p : String := "# Buy hyperspace params:\n    \"a\"\n"

/-- C3, counterexample: a non-empty report whose buy block is the lone bare
string line `"a"`. The reassembled block literal-evaluates **successfully to
the set** `{'a'}` — no exception, so the inner handler does not fire — and
the schema declares a strategy parameter, so line 475's `.get` raises
`AttributeError` out to the outer handler: the program returns no record on
non-empty input, refuting "total parse failure is the only no-record
case". -/
theorem C3_counterexample :
    parse_hyperopt_show_output cfgC3p contentC3p [] 1 Option.none "T"
        = Option.none ∧
    contentC3p ≠ "" ∧
    (parseParamBlocks (pySplitlines contentC3p)).1
        = ParamsResult.pset [PyVal.str "a"] := by
  refine ⟨by decide, by decide, by decide⟩

/-- C3, amended: empty (or absent) input returns no record; a second
no-record case exists on non-empty input — a parameter block that
literal-evaluates to a set while the schema declares strategy parameters,
whose `.get` call raises out to the outer handler; in every other case a
record is returned and every schema field is present in it. -/
theorem C3_amended :
    (∀ (cfg : HyperConfig) (ctx : List (String × String)) (idx : Int)
        (seed : Option String) (now : String),
      parse_hyperopt_show_output cfg "" ctx idx seed now = Option.none) ∧
    (∀ (cfg : HyperConfig) (content : String) (ctx : List (String × String))
        (idx : Int) (seed : Option String) (now : String),
      paramsCrash cfg (pySplitlines content) = true →
      parse_hyperopt_show_output cfg content ctx idx seed now = Option.none) ∧
    (∀ (cfg : HyperConfig) (content : String) (ctx : List (String × String))
        (idx : Int) (seed : Option String) (now : String) (k : String),
      content ≠ "" → paramsCrash cfg (pySplitlines content) = false →
      k ∈ cfg.RESULT_HEADERS →
      ∃ r, parse_hyperopt_show_output cfg content ctx idx seed now = some r ∧
        (PyDict.get? r k).isSome) := by
  refine ⟨?_, ?_, ?_⟩
  · intro cfg ctx idx seed now
    simp [parse_hyperopt_show_output]
  · intro cfg content ctx idx seed now hc
    exact parse_none_of_crash cfg content ctx idx seed now hc
  · intro cfg content ctx idx seed now k h hc hk
    refine ⟨_, parse_some cfg content ctx idx seed now h hc, ?_⟩
    exact (combine_get?_isSome cfg ctx idx seed now _ _ _ k).mpr (Or.inl hk)

def cfgC3 : HyperConfig := ⟨[], [], ["Foo"], "c.json", "Loss"⟩

/-- C3, witness: the success branch of the amended theorem at a concrete
schema, schema field `"Foo"` and report `"x"`. -/
theorem C3_witness :
    ∃ r, parse_hyperopt_show_output cfgC3 "x" [] 1 Option.none "T" = some r ∧
      (PyDict.get? r "Foo").isSome :=
  C3_amended.2.2 cfgC3 "x" [] 1 Option.none "T" "Foo" (by decide) (by decide)
    (by decide)

/-! ### Claim C4 -/

/-- C4, amended: for a schema strategy-parameter name that is **not also a
key of the accumulated metric map**, the normalized record takes the
buy-side value when the buy parameter set defines it, else the sell-side
value, else the sentinel `"N/A"`. (When a metric fragment — e.g. a summary
row whose label equals the parameter name — defines the same key, the metric
merge runs later and overrides the directional value, so the unconditional
claim fails.) -/
theorem C4_amended (cfg : HyperConfig) (ctx : List (String × String))
    (idx : Int) (seed : Option String) (now : String) (bp sp m : PyDict)
    (param : String) (hparam : param ∈ cfg.STRATEGY_HEADERS)
    (hnm : param ∉ m.keys) :
    (combine cfg ctx idx seed now bp sp m).get? param
      = some (bp.getD param (sp.getD param (.str "N/A"))) := by
  simp only [combine]
  rw [get?_filteredUpdate_not_mem _ _ _ _ hnm, get?_foldl_insert, if_pos hparam]

def cfgC4 : HyperConfig := ⟨[], ["ema_x"], [], "c.json", "Loss"⟩

def contentC4 : String :=
  "# Buy hyperspace params:\n    \"ema_x\": 10,\nSUMMARY METRICS\n│ ema_x │ 99 │\n└x\n"

/-- C4, counterexample: the buy parameter set defines `ema_x` as `10`, yet
the record holds the string `"99"` taken from a summary-table row labelled
`ema_x`, because the metric merge runs after the directional lookup — so
"the record takes the buy-side value when the buy parameter set defines it"
fails as stated. -/
theorem C4_counterexample :
    (parseParamBlocks (pySplitlines contentC4)).1
        = ParamsResult.pdict [("ema_x", PyVal.int 10)] ∧
    parsedGet (parse_hyperopt_show_output cfgC4 contentC4 [] 1 Option.none "T")
        "ema_x" = some (.str "99") ∧
    (PyVal.str "99" ≠ PyVal.int 10) := by
  refine ⟨by decide, by decide, by decide⟩

def cfgC4w : HyperConfig := ⟨[], ["p"], [], "c.json", "Loss"⟩

/-- C4, witness: the amended theorem with an empty buy set and a sell set
defining `p` as `5`: the sell-side value is used. -/
theorem C4_witness :
    (combine cfgC4w [] 1 Option.none "T" [] [("p", PyVal.int 5)] []).get? "p"
      = some (PyDict.getD [] "p" (PyDict.getD [("p", PyVal.int 5)] "p" (.str "N/A"))) :=
  C4_amended cfgC4w [] 1 Option.none "T" [] [("p", PyVal.int 5)] [] "p"
    (by decide) (by decide)

/-! ### Claim C9 -/

/-- The context dict without its timestamp entry. -/
def contextBase (cfg : HyperConfig) (ctx : List (String × String))
    (runIndex : Int) (reportedRandomState : Option String) : PyDict :=
  [("Run #", .str (toString runIndex)),
   ("Strategy", .str (get_value_from_dict ctx "strategy_name" "N/A")),
   ("Config", .str (get_value_from_dict ctx "config_filename" cfg.DEFAULT_CONFIG_FILENAME)),
   ("Epochs", .str (get_value_from_dict ctx "epochs" "")),
   ("random-state", .str (match reportedRandomState with | some s => s | Option.none => "N/A")),
   ("Timerange", .str (get_value_from_dict ctx "timerange" "")),
   ("Pairs", .str (get_value_from_dict ctx "Pairs" "N/A")),
   ("loss_function", .str (get_value_from_dict ctx "loss_function" cfg.DEFAULT_LOSS_FUNCTION)),
   ("Leverage", .str (get_value_from_dict ctx "Leverage" "N/A")),
   ("% per trade", .str (get_value_from_dict ctx "% per trade" "N/A"))]

theorem update_contextPairs (d : PyDict) (cfg : HyperConfig)
    (ctx : List (String × String)) (idx : Int) (seed : Option String)
    (now : String) :
    d.update (contextPairs cfg ctx idx seed now)
      = (d.update (contextBase cfg ctx idx seed)).insert "Date and Time" (.str now) := rfl

theorem combine_get?_now_congr (cfg : HyperConfig) (ctx : List (String × String))
    (idx : Int) (seed : Option String) (now1 now2 : String) (bp sp m : PyDict)
    (k : String) (hk : k ≠ "Date and Time") :
    (combine cfg ctx idx seed now1 bp sp m).get? k
      = (combine cfg ctx idx seed now2 bp sp m).get? k := by
  simp only [combine]
  apply get?_filteredUpdate_congr
  rw [get?_foldl_insert, get?_foldl_insert]
  by_cases hSH : k ∈ cfg.STRATEGY_HEADERS
  · simp [hSH]
  · rw [if_neg hSH, if_neg hSH, update_contextPairs, update_contextPairs,
      get?_insert_ne _ _ (fun hh => hk hh.symm),
      get?_insert_ne _ _ (fun hh => hk hh.symm)]

/-- C9, amended: extraction is a pure, deterministic function of the report
text, schema, run context, run index, reported seed **and the captured
wall-clock reading**: two invocations that differ only in the clock reading
produce records that agree on every field except `"Date and Time"`. -/
theorem C9_amended (cfg : HyperConfig) (content : String)
    (ctx : List (String × String)) (idx : Int) (seed : Option String)
    (now1 now2 : String) (k : String) (hk : k ≠ "Date and Time") :
    parsedGet (parse_hyperopt_show_output cfg content ctx idx seed now1) k
      = parsedGet (parse_hyperopt_show_output cfg content ctx idx seed now2) k := by
  by_cases h : content = ""
  · subst h
    simp [parse_hyperopt_show_output, parsedGet]
  · cases hcase : paramsCrash cfg (pySplitlines content) with
    | true =>
      rw [parse_none_of_crash cfg content ctx idx seed now1 hcase,
        parse_none_of_crash cfg content ctx idx seed now2 hcase]
    | false =>
      rw [parse_some _ _ _ _ _ _ h hcase, parse_some _ _ _ _ _ _ h hcase]
      simp only [parsedGet, Option.bind_some]
      exact combine_get?_now_congr cfg ctx idx seed now1 now2 _ _ _ k hk

def cfgC9 : HyperConfig := ⟨[], [], ["Foo"], "c.json", "Loss"⟩

/-- C9, counterexample: the record is **not** a function of report text,
schema and run context alone — the `"Date and Time"` field is read from the
wall clock while building the record, so two invocations at different clock
readings produce different records. -/
theorem C9_counterexample :
    parsedGet (parse_hyperopt_show_output cfgC9 "x" [] 1 Option.none "A")
        "Date and Time" = some (.str "A") ∧
    parsedGet (parse_hyperopt_show_output cfgC9 "x" [] 1 Option.none "B")
        "Date and Time" = some (.str "B") ∧
    (PyVal.str "A" ≠ PyVal.str "B") := by
  refine ⟨by decide, by decide, by decide⟩

/-- C9, witness: the amended theorem at a concrete report, schema field
`"Foo"` and two distinct clock readings. -/
theorem C9_witness :
    parsedGet (parse_hyperopt_show_output cfgC9 "x" [] 1 Option.none "A") "Foo"
      = parsedGet (parse_hyperopt_show_output cfgC9 "x" [] 1 Option.none "B") "Foo" :=
  C9_amended cfgC9 "x" [] 1 Option.none "A" "B" "Foo" (by decide)

end Hyperauto
